import Mathlib

/-! # URLShorty: the shortening service over its record store

A shallow embedding of `internal/core` (service, types, errors), `internal/id`
(the base62 code generator) and `internal/store/sqlite` (the record store), and
theorems about the code-assignment and resolution logic.

Conventions of the embedding:

* A Go `string` is a Lean `String`; Go's `len` is the UTF-8 byte length.
* A `time.Time` is an instant, an `Int`; `Before`/`After` are `<`/`>` and `UTC()` is the
  identity on instants.
* A Go `error` is a value of `Err`; `(T, error)` results are `Except Err T` and a bare
  `error` result is `Option Err`.
* The collaborators the service reaches through interfaces (`Store`, `CodeGenerator`) are
  records of functions over an explicit state; `nowFunc` is a clock, read by position.
* `net/url` is outside the repository: `url.Parse` is a parameter.
-/

namespace URLShorty

/-! ## internal/core/errors.go -/

/-- The sentinel errors of `core`, and `other` for every unclassified failure. -/
inductive Err where
  | ErrNotFound
  | ErrConflict
  | ErrExpired
  | ErrInvalidURL
  | ErrInvalidCode
  | ErrRateLimited
  | other (msg : String)
  deriving DecidableEq, Repr

open Err

deriving instance DecidableEq for Except

/-- IsNotFound reports whether err is a not-found condition. -/
def IsNotFound (err : Err) : Bool := err == ErrNotFound

/-- IsConflict reports whether err indicates a uniqueness conflict. -/
def IsConflict (err : Err) : Bool := err == ErrConflict

/-- IsExpired reports whether err indicates an expired resource. -/
def IsExpired (err : Err) : Bool := err == ErrExpired

/-! ## internal/core/types.go -/

/-- An instant of time. -/
abbrev Time := Int

/-- URL represents a shortened link record. -/
structure URL where
  ID : Nat
  Code : String
  LongURL : String
  CreatedAt : Time
  ExpiresAt : Option Time
  Hits : Nat
  deriving DecidableEq, Repr

/-- CreateRequest is the input to create/shorten a URL. -/
structure CreateRequest where
  URL : String
  Custom : String
  ExpiresAt : Option Time
  deriving DecidableEq, Repr

/-- Store abstracts persistence for URL records; `σ` is the state behind the interface. -/
structure Store (σ : Type) where
  Create : σ → URL → Option Err × σ
  FindByCode : σ → String → Except Err URL × σ
  IncrementHits : σ → String → Option Err × σ
  PurgeExpired : σ → Time → Except Err Nat × σ

/-- CodeGenerator creates short codes; `γ` is the state behind the interface. -/
structure CodeGenerator (γ : Type) where
  NewCode : γ → Except Err String × γ

/-! ## Strings -/

/-- Go's `len` on a string: the number of bytes of its UTF-8 encoding. -/
def len (s : String) : Nat := s.utf8ByteSize

/-- Go's `unicode.IsSpace`. -/
def isSpace (c : Char) : Bool :=
  let r := c.toNat
  if r ≤ 0xFF then
    r == 0x09 || r == 0x0A || r == 0x0B || r == 0x0C || r == 0x0D || r == 0x20
      || r == 0x85 || r == 0xA0
  else
    r == 0x1680 || (0x2000 ≤ r && r ≤ 0x200A) || r == 0x2028 || r == 0x2029
      || r == 0x202F || r == 0x205F || r == 0x3000

/-- Go's `strings.TrimSpace`: the string without its leading and trailing white space. -/
def TrimSpace (s : String) : String :=
  String.mk ((s.data.dropWhile isSpace).reverse.dropWhile isSpace).reverse

/-! ## internal/core/service.go -/

def maxURLLength : Nat := 2048
def minAliasLength : Nat := 3
def maxAliasLength : Nat := 64
def generateRetries : Nat := 6

/-- The character class `[A-Za-z0-9_-]` of `aliasRe`. -/
def aliasClass (c : Char) : Bool :=
  ('A' ≤ c && c ≤ 'Z') || ('a' ≤ c && c ≤ 'z') || ('0' ≤ c && c ≤ '9') || c == '_' || c == '-'

/-- The match of `aliasRe`, the regular expression `^[A-Za-z0-9_-]+$`: one or more
characters, each of the class, from the start of the text to its end. -/
def aliasRe.MatchString (a : String) : Bool :=
  !a.data.isEmpty && a.data.all aliasClass

/-- The service: its store, its generator and its clock. The k-th reading of the clock
is `nowFunc k`. -/
structure Service (σ γ : Type) where
  store : Store σ
  gen : CodeGenerator γ
  nowFunc : Nat → Time

/-- The state behind a service: of the store, of the generator, and how many times the
clock has been read. -/
structure World (σ γ : Type) where
  store : σ
  gen : γ
  clock : Nat
  deriving DecidableEq, Repr

def validAlias (a : String) : Bool :=
  if len a < minAliasLength || len a > maxAliasLength then
    false
  else
    aliasRe.MatchString a

/-- The clock read: `s.nowFunc()`. -/
def Service.now {σ γ : Type} (s : Service σ γ) (w : World σ γ) : Time × World σ γ :=
  (s.nowFunc w.clock, { w with clock := w.clock + 1 })

/-- The function is passed, not its result: the clock is read only for a record that
has an expiry. -/
def isExpired {κ : Type} (u : Option URL) (now : κ → Time × κ) (k : κ) : Bool × κ :=
  match u with
  | none => (false, k)
  | some u =>
    match u.ExpiresAt with
    | none => (false, k)
    | some e => (decide ((now k).1 > e), (now k).2)

/-- What the service observes of a parsed `*url.URL`: its scheme, its host and the
result of its `String` method. -/
structure ParsedURL where
  Scheme : String
  Host : String
  Text : String
  deriving DecidableEq, Repr

def normalizeAndValidateURL (Parse : String → Option ParsedURL) (raw : String) :
    Except Err String :=
  let raw := TrimSpace raw
  if raw == "" || len raw > maxURLLength then
    .error ErrInvalidURL
  else
    match Parse raw with
    | none => .error ErrInvalidURL
    | some parsed =>
      if parsed.Scheme != "http" && parsed.Scheme != "https" then
        .error ErrInvalidURL
      else if parsed.Host == "" then
        .error ErrInvalidURL
      else
        .ok parsed.Text

/-- The generated-code loop of `Shorten`, `for i := 0; i < generateRetries; i++`, with
`n` iterations left. -/
def Shorten.generate {σ γ : Type} (s : Service σ γ) (longURL : String)
    (inp : CreateRequest) : Nat → World σ γ → Except Err URL × World σ γ
  | 0, w => (.error ErrConflict, w)
  | n + 1, w =>
    let c := s.gen.NewCode w.gen
    let w := { w with gen := c.2 }
    match c.1 with
    | .error err => (.error err, w)
    | .ok code =>
      if !validAlias code then
        Shorten.generate s longURL inp n w
      else
        let t := s.now w
        let record : URL :=
          { ID := 0, Code := code, LongURL := longURL, CreatedAt := t.1,
            ExpiresAt := inp.ExpiresAt, Hits := 0 }
        let r := s.store.Create t.2.store record
        let w := { t.2 with store := r.2 }
        match r.1 with
        | none => (.ok record, w)
        | some err =>
          if !IsConflict err then (.error err, w)
          else Shorten.generate s longURL inp n w

/-- The custom-alias branch of `Shorten`: a single insert attempt. -/
def Shorten.custom {σ γ : Type} (s : Service σ γ) (longURL : String)
    (inp : CreateRequest) (w : World σ γ) : Except Err URL × World σ γ :=
  if !validAlias inp.Custom then
    (.error ErrInvalidCode, w)
  else
    let code := inp.Custom
    let t := s.now w
    let record : URL :=
      { ID := 0, Code := code, LongURL := longURL, CreatedAt := t.1,
        ExpiresAt := inp.ExpiresAt, Hits := 0 }
    let r := s.store.Create t.2.store record
    let w := { t.2 with store := r.2 }
    match r.1 with
    | some err =>
      if IsConflict err then (.error ErrConflict, w) else (.error err, w)
    | none => (.ok record, w)

/-- The expiry guard of `Shorten`, `in.ExpiresAt != nil && in.ExpiresAt.Before(s.nowFunc())`:
the clock is read only when an expiry is supplied. -/
def Shorten.pastExpiry {σ γ : Type} (s : Service σ γ) (inp : CreateRequest)
    (w : World σ γ) : Bool × World σ γ :=
  match inp.ExpiresAt with
  | none => (false, w)
  | some e => (decide (e < (s.now w).1), (s.now w).2)

/-- Shorten validates input, optionally accepts a custom alias, or generates one. -/
def Service.Shorten {σ γ : Type} (Parse : String → Option ParsedURL) (s : Service σ γ)
    (inp : CreateRequest) (w : World σ γ) : Except Err URL × World σ γ :=
  match normalizeAndValidateURL Parse inp.URL with
  | .error _ => (.error ErrInvalidURL, w)
  | .ok longURL =>
    let p := Shorten.pastExpiry s inp w
    if p.1 then
      (.error ErrInvalidURL, p.2)
    else if TrimSpace inp.Custom != "" then
      Shorten.custom s longURL inp p.2
    else
      Shorten.generate s longURL inp generateRetries p.2

/-- Resolve returns the destination URL for a code if it exists and is not expired. -/
def Service.Resolve {σ γ : Type} (s : Service σ γ) (code : String) (w : World σ γ) :
    Except Err URL × World σ γ :=
  if !validAlias code then
    (.error ErrInvalidCode, w)
  else
    let r := s.store.FindByCode w.store code
    let w := { w with store := r.2 }
    match r.1 with
    | .error err =>
      if IsNotFound err then (.error ErrNotFound, w) else (.error err, w)
    | .ok rec =>
      let x := isExpired (some rec) s.now w
      if x.1 then (.error ErrExpired, x.2) else (.ok rec, x.2)

/-- Metadata returns the record whether or not it is expired. -/
def Service.Metadata {σ γ : Type} (s : Service σ γ) (code : String) (w : World σ γ) :
    Except Err URL × World σ γ :=
  if !validAlias code then
    (.error ErrInvalidCode, w)
  else
    let r := s.store.FindByCode w.store code
    let w := { w with store := r.2 }
    match r.1 with
    | .error err =>
      if IsNotFound err then (.error ErrNotFound, w) else (.error err, w)
    | .ok rec => (.ok rec, w)

/-- RecordHit increments the hits counter; failures are returned for caller to log. -/
def Service.RecordHit {σ γ : Type} (s : Service σ γ) (code : String) (w : World σ γ) :
    Option Err × World σ γ :=
  if !validAlias code then
    (some ErrInvalidCode, w)
  else
    let r := s.store.IncrementHits w.store code
    (r.1, { w with store := r.2 })

/-- CleanupExpired purges expired links and returns the number of rows affected. -/
def Service.CleanupExpired {σ γ : Type} (s : Service σ γ) (w : World σ γ) :
    Except Err Nat × World σ γ :=
  let t := s.now w
  let r := s.store.PurgeExpired t.2.store t.1
  (r.1, { t.2 with store := r.2 })

/-! ## internal/store/sqlite/sqlite.go -/

namespace sqlite

/-- The `urls` table: its rows in insertion order, and the largest row id assigned so
far (the id column is `INTEGER PRIMARY KEY AUTOINCREMENT`). The `code` column is
`UNIQUE`. -/
structure DB where
  rows : List URL
  seq : Nat
  deriving DecidableEq, Repr

/-- The condition `WHERE code = ?`. -/
def hasCode (code : String) (r : URL) : Bool := r.Code == code

/-- Create inserts a new URL record. Returns ErrConflict if code already exists. The
inserted row takes the next id and `hits` 0. -/
def Create (db : DB) (u : URL) : Option Err × DB :=
  if db.rows.any (hasCode u.Code) then
    (some ErrConflict, db)
  else
    (none,
      { rows := db.rows ++ [{ ID := db.seq + 1, Code := u.Code, LongURL := u.LongURL,
                              CreatedAt := u.CreatedAt, ExpiresAt := u.ExpiresAt,
                              Hits := 0 }],
        seq := db.seq + 1 })

/-- FindByCode returns a URL record for the given code (expired included). -/
def FindByCode (db : DB) (code : String) : Except Err URL × DB :=
  match db.rows.find? (hasCode code) with
  | none => (.error ErrNotFound, db)
  | some rec => (.ok rec, db)

/-- IncrementHits increases the hits counter for code. If the code does not exist,
return ErrNotFound so the caller can log it. -/
def IncrementHits (db : DB) (code : String) : Option Err × DB :=
  let n := (db.rows.filter (hasCode code)).length
  let db := { db with rows := db.rows.map fun r =>
                if hasCode code r then { r with Hits := r.Hits + 1 } else r }
  if n == 0 then (some ErrNotFound, db) else (none, db)

/-- The condition `WHERE expires_at IS NOT NULL AND expires_at <= ?`. -/
def isPurgeable (now : Time) (r : URL) : Bool :=
  match r.ExpiresAt with
  | none => false
  | some e => decide (e ≤ now)

/-- PurgeExpired deletes expired links and returns deleted row count. -/
def PurgeExpired (db : DB) (now : Time) : Except Err Nat × DB :=
  (.ok (db.rows.filter (isPurgeable now)).length,
    { db with rows := db.rows.filter fun r => !isPurgeable now r })

/-- The SQLite-backed implementation of `core.Store`. -/
def Store : URLShorty.Store DB :=
  { Create := Create, FindByCode := FindByCode, IncrementHits := IncrementHits,
    PurgeExpired := PurgeExpired }

end sqlite

/-! ## internal/id -/

/-- The base62 alphabet: 62 chars. -/
def alphabet : String := "0123456789ABCDEFGHIJKLMNOPQRSTUVWXYZabcdefghijklmnopqrstuvwxyz"

/-- The random source behind `rand.Int(rand.Reader, base)`: its k-th draw is a value
uniform in [0,62) or a failure. -/
abbrev RandSource := Nat → Except Err (Fin 62)

/-- The character `alphabet[idx]`. -/
def alphabetAt (idx : Fin 62) : Char := alphabet.data.getD idx.val '0'

/-- The loop of `RandomBase62`, with `n` characters left to draw; `b` is the builder
and `k` the number of draws made so far. -/
def RandomBase62.loop (src : RandSource) : Nat → List Char → Nat → Except Err String × Nat
  | 0, b, k => (.ok (String.mk b), k)
  | n + 1, b, k =>
    match src k with
    | .error err => (.error err, k + 1)
    | .ok idx => RandomBase62.loop src n (b ++ [alphabetAt idx]) (k + 1)

/-- RandomBase62 returns a random base62 string of length n. -/
def RandomBase62 (src : RandSource) (n : Int) (k : Nat) : Except Err String × Nat :=
  let n := if n ≤ 0 then 7 else n
  RandomBase62.loop src n.toNat [] k

/-- Generator implements core.CodeGenerator using base62 random strings. -/
structure Generator where
  length : Int
  deriving DecidableEq, Repr

/-- NewGenerator creates a code generator with a fixed length (default 7 if <=0). -/
def NewGenerator (length : Int) : Generator :=
  { length := if length ≤ 0 then 7 else length }

/-- NewCode generates a new random code. -/
def Generator.NewCode (g : Generator) (src : RandSource) (k : Nat) : Except Err String × Nat :=
  RandomBase62 src g.length k

/-- The generator as a `CodeGenerator`; its state is the number of draws made. -/
def Generator.asCodeGenerator (g : Generator) (src : RandSource) : CodeGenerator Nat :=
  { NewCode := g.NewCode src }

/-! ## Recording the calls made through the interfaces -/

/-- A call on the store, with what it returned. -/
inductive StoreCall where
  | Create (u : URL) (err : Option Err)
  | FindByCode (code : String) (res : Except Err URL)
  | IncrementHits (code : String) (err : Option Err)
  | PurgeExpired (now : Time) (res : Except Err Nat)
  deriving DecidableEq, Repr

/-- The store `S` with a journal: every call on it is appended to the list. -/
def Store.logged {σ : Type} (S : Store σ) : Store (σ × List StoreCall) :=
  { Create := fun st u =>
      ((S.Create st.1 u).1, ((S.Create st.1 u).2, st.2 ++ [.Create u (S.Create st.1 u).1]))
    FindByCode := fun st code =>
      ((S.FindByCode st.1 code).1,
        ((S.FindByCode st.1 code).2, st.2 ++ [.FindByCode code (S.FindByCode st.1 code).1]))
    IncrementHits := fun st code =>
      ((S.IncrementHits st.1 code).1,
        ((S.IncrementHits st.1 code).2,
          st.2 ++ [.IncrementHits code (S.IncrementHits st.1 code).1]))
    PurgeExpired := fun st now =>
      ((S.PurgeExpired st.1 now).1,
        ((S.PurgeExpired st.1 now).2,
          st.2 ++ [.PurgeExpired now (S.PurgeExpired st.1 now).1])) }

/-- The generator `G` with a journal: the outcome of every call is appended to the list. -/
def CodeGenerator.logged {γ : Type} (G : CodeGenerator γ) :
    CodeGenerator (γ × List (Except Err String)) :=
  { NewCode := fun g => ((G.NewCode g.1).1, ((G.NewCode g.1).2, g.2 ++ [(G.NewCode g.1).1])) }

/-- The service `s` with a journal on its store and on its generator. -/
def Service.logged {σ γ : Type} (s : Service σ γ) :
    Service (σ × List StoreCall) (γ × List (Except Err String)) :=
  { store := s.store.logged, gen := s.gen.logged, nowFunc := s.nowFunc }

/-- The records of the insert attempts in a journal, in order. -/
def inserts : List StoreCall → List URL
  | [] => []
  | .Create u _ :: cs => u :: inserts cs
  | _ :: cs => inserts cs

/-- The candidates in a journal of generator outcomes that pass the syntax check, in
order: the ones `Shorten` tries to insert. -/
def candidates : List (Except Err String) → List String
  | [] => []
  | .ok code :: os => if validAlias code then code :: candidates os else candidates os
  | .error _ :: os => candidates os

/-- The calls the service can receive. -/
inductive Call where
  | Shorten (inp : CreateRequest)
  | Resolve (code : String)
  | Metadata (code : String)
  | RecordHit (code : String)
  | CleanupExpired
  deriving DecidableEq, Repr

/-- The world after the service has served a call. -/
def Service.step {σ γ : Type} (Parse : String → Option ParsedURL) (s : Service σ γ)
    (c : Call) (w : World σ γ) : World σ γ :=
  match c with
  | .Shorten inp => (s.Shorten Parse inp w).2
  | .Resolve code => (s.Resolve code w).2
  | .Metadata code => (s.Metadata code w).2
  | .RecordHit code => (s.RecordHit code w).2
  | .CleanupExpired => (s.CleanupExpired w).2

/-- The world after the service has served a sequence of calls, one after the other. -/
def Service.run {σ γ : Type} (Parse : String → Option ParsedURL) (s : Service σ γ) :
    List Call → World σ γ → World σ γ
  | [], w => w
  | c :: cs, w => Service.run Parse s cs (s.step Parse c w)

/-- A generator that plays a script: its k-th call returns `script k`. Its state is the
number of calls made. -/
def scripted (script : Nat → Except Err String) : CodeGenerator Nat :=
  { NewCode := fun k => (script k, k + 1) }

/-! ## A sample of `url.Parse`

`sampleParse` follows `net/url` on the URLs written with letters, digits and `-._~` in the
scheme, the host (with an optional port) and the path, and with characters outside ASCII in
the path; it reports a failure on every other input. It is used to run the service on
concrete requests. -/

namespace sample

def isLetter (c : Char) : Bool := ('a' ≤ c && c ≤ 'z') || ('A' ≤ c && c ≤ 'Z')

def isDigit (c : Char) : Bool := '0' ≤ c && c ≤ '9'

def isUnreserved (c : Char) : Bool :=
  isLetter c || isDigit c || c == '-' || c == '_' || c == '.' || c == '~'

/-- The scan of `getScheme`: `some (scheme, rest)`, or `none` for the error
"missing protocol scheme". -/
def getScheme.scan (raw : List Char) : List Char → Nat → Option (List Char × List Char)
  | [], _ => some ([], raw)
  | c :: cs, i =>
    if isLetter c then getScheme.scan raw cs (i + 1)
    else if isDigit c || c == '+' || c == '-' || c == '.' then
      if i == 0 then some ([], raw) else getScheme.scan raw cs (i + 1)
    else if c == ':' then
      if i == 0 then none else some (raw.take i, cs)
    else some ([], raw)

def getScheme (raw : List Char) : Option (List Char × List Char) :=
  getScheme.scan raw raw 0

def toLower (c : Char) : Char :=
  if 'A' ≤ c && c ≤ 'Z' then Char.ofNat (c.toNat + 32) else c

def hexDigit (n : Nat) : Char := "0123456789ABCDEF".data.getD n '0'

/-- The bytes of the UTF-8 encoding of a character. -/
def utf8 (c : Char) : List Nat :=
  let n := c.toNat
  if n < 0x80 then [n]
  else if n < 0x800 then [0xC0 + n / 64, 0x80 + n % 64]
  else if n < 0x10000 then [0xE0 + n / 4096, 0x80 + n / 64 % 64, 0x80 + n % 64]
  else [0xF0 + n / 262144, 0x80 + n / 4096 % 64, 0x80 + n / 64 % 64, 0x80 + n % 64]

/-- The escaping of a path: the bytes of a character outside ASCII become `%XX`. -/
def escapePath (path : List Char) : List Char :=
  path.flatMap fun c =>
    if c.toNat < 0x80 then [c]
    else (utf8 c).flatMap fun b => ['%', hexDigit (b / 16), hexDigit (b % 16)]

/-- The check `validOptionalPort` on a host: nothing, or `:` and digits, after the name. -/
def validHostPort (authority : List Char) : Bool :=
  let name := authority.takeWhile (fun c => c != ':')
  let port := authority.dropWhile (fun c => c != ':')
  name.all isUnreserved && (port.isEmpty || (port.drop 1).all isDigit)

def Parse (rawURL : String) : Option ParsedURL :=
  match getScheme rawURL.data with
  | none => none
  | some (scheme, rest) =>
    let scheme := scheme.map toLower
    match rest with
    | '/' :: '/' :: more =>
      let authority := more.takeWhile (fun c => c != '/')
      let path := more.dropWhile (fun c => c != '/')
      if validHostPort authority && path.all (fun c => isUnreserved c || c == '/' || c.toNat ≥ 0x80)
      then
        some { Scheme := String.mk scheme, Host := String.mk authority,
               Text := String.mk ((if scheme.isEmpty then [] else scheme ++ [':'])
                         ++ (if authority.isEmpty && path.isEmpty then [] else ['/', '/'])
                         ++ authority ++ escapePath path) }
      else none
    | _ =>
      if rest.all (fun c => isUnreserved c || c == '/') then
        some { Scheme := String.mk scheme, Host := "",
               Text := String.mk ((if scheme.isEmpty then [] else scheme ++ [':']) ++ rest) }
      else none

end sample

/-! ## Wiring and well-formed tables -/

/-- NewService builds a service; `timeNow` stands for `time.Now`. -/
def NewService {σ γ : Type} (store : Store σ) (gen : CodeGenerator γ) (timeNow : Nat → Time) :
    Service σ γ :=
  { store := store, gen := gen, nowFunc := timeNow }

/-- What the schema guarantees of the `urls` table: `code` is `UNIQUE`, `id` is the
primary key, and no row has an id above the largest one assigned. -/
def sqlite.DB.WF (db : sqlite.DB) : Prop :=
  (db.rows.map URL.Code).Nodup ∧ (db.rows.map URL.ID).Nodup ∧ ∀ r ∈ db.rows, r.ID ≤ db.seq

instance (db : sqlite.DB) : Decidable db.WF := by
  unfold sqlite.DB.WF
  infer_instance

/-- The empty table of a fresh database. -/
def sqlite.empty : sqlite.DB := { rows := [], seq := 0 }

/-- What one run of the generated-code loop with `n` iterations adds to the journals:
`newG` to the generator's and `newS` to the store's, with result `res`. -/
structure LoopSpec (longURL : String) (inp : CreateRequest) (n : Nat) (res : Except Err URL)
    (newS : List StoreCall) (newG : List (Except Err String)) : Prop where
  gen_le : newG.length ≤ n
  creates : ∀ c ∈ newS, ∃ u e, c = .Create u e
  codes : (inserts newS).map URL.Code = candidates newG
  fields : ∀ u ∈ inserts newS,
    u.ID = 0 ∧ u.LongURL = longURL ∧ u.ExpiresAt = inp.ExpiresAt ∧ u.Hits = 0
  ok : ∀ record, res = .ok record →
    ∃ init, newS = init ++ [.Create record none] ∧
      ∀ c ∈ init, ∃ u, c = .Create u (some ErrConflict)
  exhausted : (∀ o ∈ newG, ∃ code, o = .ok code ∧ validAlias code = true) →
    (∀ u e, StoreCall.Create u e ∈ newS → e = some ErrConflict) →
    newG.length = n ∧ res = .error ErrConflict

/-- The world of a journalled service without its journals. -/
def World.erase {σ γ : Type} (w : World (σ × List StoreCall) (γ × List (Except Err String))) :
    World σ γ :=
  { store := w.store.1, gen := w.gen.1, clock := w.clock }

/-- The row the `INSERT` of `Create` adds for the record `u` when the largest id assigned
so far is `seq`. -/
def sqlite.inserted (seq : Nat) (u : URL) : URL :=
  { ID := seq + 1, Code := u.Code, LongURL := u.LongURL, CreatedAt := u.CreatedAt,
    ExpiresAt := u.ExpiresAt, Hits := 0 }

/-- One change of the table: none, an insert that succeeds, a hit increment, or a purge. -/
inductive sqlite.Change : sqlite.DB → sqlite.DB → Prop where
  | same (db : sqlite.DB) : sqlite.Change db db
  | create (db : sqlite.DB) (u : URL) (h : ∀ r ∈ db.rows, r.Code ≠ u.Code) :
      sqlite.Change db (sqlite.Create db u).2
  | hit (db : sqlite.DB) (code : String) : sqlite.Change db (sqlite.IncrementHits db code).2
  | purge (db : sqlite.DB) (now : Time) : sqlite.Change db (sqlite.PurgeExpired db now).2

/-- The table `db'` is a later state of the table `db`: every row of `db'` whose id had
been assigned in `db` is a row of `db`, with the same code, destination, creation time and
expiry, and at least as many hits. -/
def sqlite.Later (db db' : sqlite.DB) : Prop :=
  db.seq ≤ db'.seq ∧
  ∀ r' ∈ db'.rows, r'.ID ≤ db.seq →
    ∃ r ∈ db.rows, r.ID = r'.ID ∧ r.Code = r'.Code ∧ r.LongURL = r'.LongURL ∧
      r.CreatedAt = r'.CreatedAt ∧ r.ExpiresAt = r'.ExpiresAt ∧ r.Hits ≤ r'.Hits

/-- What a successful `Shorten` over the SQLite store returns and stores. -/
structure Created (l : String) (inp : CreateRequest) (db db' : sqlite.DB) (record : URL) :
    Prop where
  valid : validAlias record.Code = true
  id : record.ID = 0
  long : record.LongURL = l
  expires : record.ExpiresAt = inp.ExpiresAt
  hits : record.Hits = 0
  free : ∀ r ∈ db.rows, r.Code ≠ record.Code
  stored : db' = { rows := db.rows ++ [sqlite.inserted db.seq record], seq := db.seq + 1 }

/-! ## Sample worlds, to run the service on concrete requests -/

namespace sample

/-- A clock whose k-th reading is `t0 + step * k`. -/
def clock (t0 step : Int) : Nat → Time := fun k => t0 + step * k

/-- A random source that never fails: its k-th draw is `k` modulo 62. -/
def cycling : RandSource := fun k => .ok ⟨k % 62, Nat.mod_lt k (by decide)⟩

/-- The world of a service over a fresh database. -/
def fresh : World sqlite.DB Nat := { store := sqlite.empty, gen := 0, clock := 0 }

/-- The world of a journalled service over a fresh database. -/
def freshLogged : World (sqlite.DB × List StoreCall) (Nat × List (Except Err String)) :=
  { store := (sqlite.empty, []), gen := (0, []), clock := 0 }

/-- A destination of 1030 characters and 2050 bytes: `https://a/` and 1020 times `é`. -/
def longURL : String := String.mk ("https://a/".data ++ List.replicate 1020 'é')

end sample

namespace sample

/-- The service as `app.New` wires it, over the SQLite store, with the base62 generator of
the configured code length, the source `cycling` and a clock that reads 100, 101, ... -/
abbrev service (codeLength : Int) : Service sqlite.DB Nat :=
  NewService sqlite.Store ((NewGenerator codeLength).asCodeGenerator cycling) (clock 100 1)

/-- A table with one record, under the code `abc`, that expires at 100. -/
def expiring : World sqlite.DB Nat :=
  { store := { rows := [{ ID := 1, Code := "abc", LongURL := "https://x.test",
                          CreatedAt := 90, ExpiresAt := some 100, Hits := 0 }],
               seq := 1 },
    gen := 0, clock := 0 }

end sample

/-! ## Generators, call after call -/

/-- The state of the generator `G` after `k` calls from the state `g`. -/
def CodeGenerator.after {γ : Type} (G : CodeGenerator γ) : γ → Nat → γ
  | g, 0 => g
  | g, k + 1 => CodeGenerator.after G (G.NewCode g).2 k

/-- The codes of the successful calls in a journal of generator outcomes, in order. -/
def okCodes : List (Except Err String) → List String
  | [] => []
  | .ok code :: os => code :: okCodes os
  | .error _ :: os => okCodes os

/-! ## internal/http/handlers.go -/

/-- The text of an error, `err.Error()`. -/
def Err.Error : Err → String
  | ErrNotFound => "not found"
  | ErrConflict => "code already exists"
  | ErrExpired => "link expired"
  | ErrInvalidURL => "invalid url"
  | ErrInvalidCode => "invalid code"
  | ErrRateLimited => "rate limited"
  | other msg => msg

def StatusOK : Nat := 200
def StatusBadRequest : Nat := 400
def StatusNotFound : Nat := 404
def StatusInternalServerError : Nat := 500

/-- The JSON body of a response: the object with the key `error`, or the object the
metadata endpoint answers with. -/
inductive Body where
  | error (msg : String)
  | metadata (code url : String) (created_at : Time) (expires_at : Option Time) (hits : Nat)
      (expired : Bool) (short_url : String)
  deriving DecidableEq, Repr

/-- A response: its status and its JSON body. -/
structure Response where
  status : Nat
  body : Body
  deriving DecidableEq, Repr

def jsonError (status : Nat) (msg : String) : Response :=
  { status := status, body := .error msg }

structure Handlers (σ γ : Type) where
  svc : Service σ γ
  baseURL : String

def NewHandlers {σ γ : Type} (svc : Service σ γ) (baseURL : String) : Handlers σ γ :=
  { svc := svc, baseURL := baseURL }

/-- The metadata endpoint. `timeNow` stands for `time.Now`, read at the position of the
clock in the world, and only for a record that has an expiry. -/
def Handlers.Metadata {σ γ : Type} (h : Handlers σ γ) (timeNow : Nat → Time) (code : String)
    (w : World σ γ) : Response × World σ γ :=
  let r := h.svc.Metadata code w
  match r.1 with
  | .error err =>
    if err = ErrInvalidCode then (jsonError StatusBadRequest err.Error, r.2)
    else if err = ErrNotFound then (jsonError StatusNotFound "not found", r.2)
    else (jsonError StatusInternalServerError "internal error", r.2)
  | .ok rec =>
    let expired : Bool × World σ γ :=
      match rec.ExpiresAt with
      | none => (false, r.2)
      | some e => (decide (timeNow r.2.clock > e), { r.2 with clock := r.2.clock + 1 })
    ({ status := StatusOK,
       body := .metadata rec.Code rec.LongURL rec.CreatedAt rec.ExpiresAt rec.Hits expired.1
                 (h.baseURL ++ "/" ++ rec.Code) },
      expired.2)

/-- A generator for the samples: its first `k` calls return the candidate `ab`, which
fails the syntax check, and every later call returns `abcdefg`. -/
def sample.stutter (k : Nat) : CodeGenerator Nat :=
  scripted fun j => if j < k then .ok "ab" else .ok "abcdefg"

end URLShorty

/-! # Theorems -/

namespace URLShorty

open Err

/-! ## Characters and lengths -/

theorem char_le_iff (a b : Char) : a ≤ b ↔ a.toNat ≤ b.toNat := Iff.rfl

theorem aliasClass_iff (c : Char) :
    aliasClass c = true ↔
      (('A' ≤ c ∧ c ≤ 'Z') ∨ ('a' ≤ c ∧ c ≤ 'z') ∨ ('0' ≤ c ∧ c ≤ '9') ∨ c = '_' ∨ c = '-') := by
  simp only [aliasClass, Bool.or_eq_true, Bool.and_eq_true, decide_eq_true_eq, beq_iff_eq]
  tauto

theorem aliasClass_toNat (c : Char) (h : aliasClass c = true) : c.toNat < 128 := by
  simp only [aliasClass, Bool.or_eq_true, Bool.and_eq_true, decide_eq_true_eq, beq_iff_eq,
    char_le_iff] at h
  rcases h with (((h | h) | h) | h) | h
  · have : 'Z'.toNat = 90 := by decide
    omega
  · have : 'z'.toNat = 122 := by decide
    omega
  · have : '9'.toNat = 57 := by decide
    omega
  · subst h; decide
  · subst h; decide

theorem utf8Size_of_ascii (c : Char) (h : c.toNat < 128) : c.utf8Size = 1 := by
  have h1 : c.val ≤ UInt32.ofNatCore 127 (by decide) := by
    show c.val.toNat ≤ 127
    exact Nat.lt_succ_iff.mp h
  show (if c.val ≤ UInt32.ofNatCore 127 (by decide) then 1 else _) = 1
  rw [if_pos h1]

theorem utf8Len_of_ascii (cs : List Char) (h : ∀ c ∈ cs, c.toNat < 128) :
    String.utf8Len cs = cs.length := by
  induction cs with
  | nil => rfl
  | cons c cs ih =>
    simp only [String.utf8Len_cons, List.length_cons]
    rw [ih (fun d hd => h d (List.mem_cons_of_mem _ hd)),
      utf8Size_of_ascii c (h c (List.mem_cons_self _ _))]

theorem len_eq_utf8Len (s : String) : len s = String.utf8Len s.data := rfl

/-- A string of characters of the alias class has as many bytes as characters. -/
theorem len_of_aliasClass (a : String) (h : ∀ c ∈ a.data, aliasClass c = true) :
    len a = a.length := by
  rw [len_eq_utf8Len, utf8Len_of_ascii a.data (fun c hc => aliasClass_toNat c (h c hc))]
  rfl

theorem validAlias_iff (a : String) :
    validAlias a = true ↔
      (3 ≤ a.length ∧ a.length ≤ 64 ∧ ∀ c ∈ a.data, aliasClass c = true) := by
  unfold validAlias aliasRe.MatchString minAliasLength maxAliasLength
  constructor
  · intro h
    split at h
    · exact absurd h (by simp)
    · rename_i hb
      simp only [Bool.and_eq_true, Bool.not_eq_true', List.all_eq_true] at h
      simp only [Bool.or_eq_true, decide_eq_true_eq, not_or, not_lt] at hb
      rw [len_of_aliasClass a h.2] at hb
      exact ⟨hb.1, hb.2, h.2⟩
  · rintro ⟨h3, h64, hall⟩
    have hl := len_of_aliasClass a hall
    have hne : a.data.isEmpty = false := by
      cases hd : a.data with
      | nil =>
        have : a.length = 0 := by
          show a.data.length = 0
          rw [hd]; rfl
        omega
      | cons c cs => rfl
    rw [if_neg (by simp only [Bool.or_eq_true, decide_eq_true_eq, hl]; omega)]
    simp only [hne, Bool.not_false, Bool.true_and, List.all_eq_true]
    exact hall

theorem validAlias_eq_false_iff (a : String) :
    validAlias a = false ↔
      (a.length < 3 ∨ 64 < a.length ∨ ∃ c ∈ a.data, aliasClass c = false) := by
  rw [← Bool.not_eq_true, validAlias_iff]
  constructor
  · intro h
    by_contra hc
    simp only [not_or, not_lt, not_exists, not_and, Bool.not_eq_false] at hc
    exact h ⟨hc.1, hc.2.1, hc.2.2⟩
  · rintro (h | h | ⟨c, hc, hf⟩) ⟨h3, h64, hall⟩
    · omega
    · omega
    · rw [hall c hc] at hf
      exact absurd hf (by simp)

/-! ## C5: the code syntax check -/

/-- C5. The syntax check `validAlias`, shared by the custom-alias path of `Shorten` and by
`Resolve`, `Metadata` and `RecordHit`, accepts a string exactly when it has between 3 and
64 characters, each of them in `[A-Za-z0-9_-]`. On a string it rejects, the custom-alias
path, `Resolve`, `Metadata` and `RecordHit` fail with `ErrInvalidCode` and hand back the
world as it was, for every store: no call is made on the store (a journalled store would
have recorded it). -/
theorem C5_code_syntax_check {σ γ : Type} (s : Service σ γ) (w : World σ γ) (a : String) :
    (validAlias a = true ↔
      (3 ≤ a.length ∧ a.length ≤ 64 ∧
        ∀ c ∈ a.data, ('A' ≤ c ∧ c ≤ 'Z') ∨ ('a' ≤ c ∧ c ≤ 'z') ∨ ('0' ≤ c ∧ c ≤ '9')
          ∨ c = '_' ∨ c = '-')) ∧
    (validAlias a = false →
      s.Resolve a w = (.error ErrInvalidCode, w) ∧
      s.Metadata a w = (.error ErrInvalidCode, w) ∧
      s.RecordHit a w = (some ErrInvalidCode, w) ∧
      ∀ longURL inp, inp.Custom = a →
        Shorten.custom s longURL inp w = (.error ErrInvalidCode, w)) := by
  refine ⟨?_, ?_⟩
  · rw [validAlias_iff]
    simp only [aliasClass_iff]
  · intro h
    refine ⟨?_, ?_, ?_, ?_⟩
    · simp [Service.Resolve, h]
    · simp [Service.Metadata, h]
    · simp [Service.RecordHit, h]
    · intro longURL inp hc
      simp [Shorten.custom, hc, h]

/-! ## The SQLite store -/

theorem find?_hasCode_of_mem {rows : List URL} (hnd : (rows.map URL.Code).Nodup) {r : URL}
    (hr : r ∈ rows) : rows.find? (sqlite.hasCode r.Code) = some r := by
  induction rows with
  | nil => cases hr
  | cons x xs ih =>
    rw [List.map_cons, List.nodup_cons] at hnd
    rcases List.mem_cons.mp hr with h | h
    · subst h
      simp [List.find?, sqlite.hasCode]
    · have hne : x.Code ≠ r.Code := by
        intro he
        exact hnd.1 (he ▸ List.mem_map_of_mem URL.Code h)
      have : sqlite.hasCode r.Code x = false := by simp [sqlite.hasCode, hne]
      rw [List.find?, this]
      exact ih hnd.2 h

theorem find?_hasCode_none {rows : List URL} {code : String}
    (h : ∀ r ∈ rows, r.Code ≠ code) : rows.find? (sqlite.hasCode code) = none := by
  rw [List.find?_eq_none]
  intro r hr
  simp [sqlite.hasCode, h r hr]

theorem find?_hasCode_some {rows : List URL} {code : String} {r : URL}
    (h : rows.find? (sqlite.hasCode code) = some r) : r ∈ rows ∧ r.Code = code := by
  refine ⟨List.mem_of_find?_eq_some h, ?_⟩
  have := List.find?_some h
  simpa [sqlite.hasCode] using this

/-- The lookup of the SQLite store. -/
theorem FindByCode_eq (db : sqlite.DB) (code : String) :
    sqlite.Store.FindByCode db code =
      match db.rows.find? (sqlite.hasCode code) with
      | none => (.error ErrNotFound, db)
      | some r => (.ok r, db) := rfl

/-- Resolve over the SQLite store, on a code that passes the syntax check and has a row. -/
theorem Resolve_sqlite_of_mem {γ : Type} (G : CodeGenerator γ) (clk : Nat → Time)
    (w : World sqlite.DB γ) (hnd : (w.store.rows.map URL.Code).Nodup) (r : URL)
    (hr : r ∈ w.store.rows) (hv : validAlias r.Code = true) :
    (NewService sqlite.Store G clk).Resolve r.Code w =
      match r.ExpiresAt with
      | none => (.ok r, w)
      | some e =>
        if clk w.clock > e then (.error ErrExpired, { w with clock := w.clock + 1 })
        else (.ok r, { w with clock := w.clock + 1 }) := by
  unfold Service.Resolve
  simp only [NewService, FindByCode_eq, find?_hasCode_of_mem hnd hr, hv, Bool.not_true,
    Bool.false_eq_true, if_false, isExpired]
  cases r.ExpiresAt with
  | none => simp
  | some e =>
    simp only [Service.now, decide_eq_true_eq]

theorem Resolve_sqlite_of_not_mem {γ : Type} (G : CodeGenerator γ) (clk : Nat → Time)
    (w : World sqlite.DB γ) (code : String) (hv : validAlias code = true)
    (h : ∀ r ∈ w.store.rows, r.Code ≠ code) :
    (NewService sqlite.Store G clk).Resolve code w = (.error ErrNotFound, w) := by
  unfold Service.Resolve
  simp [NewService, FindByCode_eq, find?_hasCode_none h, hv, IsNotFound]

/-- Neither `Resolve` nor `Metadata` changes the table of the SQLite store. -/
theorem Resolve_sqlite_store {γ : Type} (G : CodeGenerator γ) (clk : Nat → Time)
    (w : World sqlite.DB γ) (code : String) :
    ((NewService sqlite.Store G clk).Resolve code w).2.store = w.store := by
  unfold Service.Resolve
  by_cases hv : validAlias code = true
  · simp only [NewService, FindByCode_eq, hv, Bool.not_true, Bool.false_eq_true, if_false]
    cases w.store.rows.find? (sqlite.hasCode code) with
    | none => simp [IsNotFound]
    | some r =>
      simp only [isExpired]
      cases r.ExpiresAt with
      | none => simp
      | some e =>
        simp only [Service.now]
        split <;> rfl
  · simp [hv]

theorem Metadata_sqlite_store {γ : Type} (G : CodeGenerator γ) (clk : Nat → Time)
    (w : World sqlite.DB γ) (code : String) :
    ((NewService sqlite.Store G clk).Metadata code w).2.store = w.store := by
  unfold Service.Metadata
  by_cases hv : validAlias code = true
  · simp only [NewService, FindByCode_eq, hv, Bool.not_true, Bool.false_eq_true, if_false]
    cases w.store.rows.find? (sqlite.hasCode code) with
    | none => simp [IsNotFound]
    | some r => simp
  · simp [hv]

/-! ## C4: resolution and expiry -/

/-- C4. Over the SQLite store, for a code that passes the syntax check: `Resolve` fails with
`ErrNotFound` when no row has the code; when a row `r` has it, `Resolve` fails with
`ErrExpired` exactly when `r` has an expiry strictly before the reading of the clock, in
which case no record is returned, and in every other case it returns `r` as stored; the
table is left as it was. In particular, for any length `sec > 0` of a second, a record
whose expiry is one second after the first reading resolves, and resolved again at a
reading two seconds later it fails with `ErrExpired`. -/
theorem C4_resolve_expiry {γ : Type} (G : CodeGenerator γ) (clk : Nat → Time)
    (w : World sqlite.DB γ) (code : String) (hwf : w.store.WF)
    (hv : validAlias code = true) :
    ((∀ r ∈ w.store.rows, r.Code ≠ code) →
      (NewService sqlite.Store G clk).Resolve code w = (.error ErrNotFound, w)) ∧
    (∀ r ∈ w.store.rows, r.Code = code →
      (((NewService sqlite.Store G clk).Resolve code w).1 = .error ErrExpired ↔
        ∃ e, r.ExpiresAt = some e ∧ e < clk w.clock) ∧
      (((NewService sqlite.Store G clk).Resolve code w).1 ≠ .error ErrExpired →
        ((NewService sqlite.Store G clk).Resolve code w).1 = .ok r) ∧
      ((NewService sqlite.Store G clk).Resolve code w).2.store = w.store ∧
      ∀ sec : Int, 0 < sec → r.ExpiresAt = some (clk w.clock + sec) →
        clk (w.clock + 1) = clk w.clock + 2 * sec →
        ((NewService sqlite.Store G clk).Resolve code w).1 = .ok r ∧
        ((NewService sqlite.Store G clk).Resolve code
          ((NewService sqlite.Store G clk).Resolve code w).2).1 = .error ErrExpired) := by
  refine ⟨Resolve_sqlite_of_not_mem G clk w code hv, ?_⟩
  intro r hr hc
  subst hc
  have key := Resolve_sqlite_of_mem G clk w hwf.1 r hr hv
  refine ⟨?_, ?_, ?_, ?_⟩
  · rw [key]
    cases he : r.ExpiresAt with
    | none => simp
    | some e =>
      by_cases hlt : clk w.clock > e
      · simp [hlt]
      · simp [hlt]
  · rw [key]
    cases he : r.ExpiresAt with
    | none => simp
    | some e =>
      by_cases hlt : clk w.clock > e
      · simp [hlt]
      · simp [hlt]
  · rw [key]
    cases he : r.ExpiresAt with
    | none => simp
    | some e =>
      by_cases hlt : clk w.clock > e
      · simp [hlt]
      · simp [hlt]
  · intro sec hsec he hnext
    have h1 : ¬ clk w.clock > clk w.clock + sec := by linarith
    have key1 : (NewService sqlite.Store G clk).Resolve r.Code w =
        (.ok r, { w with clock := w.clock + 1 }) := by
      rw [key, he]
      simp only [if_neg h1]
    refine ⟨by rw [key1], ?_⟩
    rw [key1]
    have key2 := Resolve_sqlite_of_mem G clk { w with clock := w.clock + 1 } hwf.1 r hr hv
    rw [key2, he]
    have h2 : clk (w.clock + 1) > clk w.clock + sec := by linarith
    simp only [if_pos h2]

/-! ## The generated-code loop, journalled -/

theorem IsConflict_iff (err : Err) : IsConflict err = true ↔ err = ErrConflict := by
  simp [IsConflict]

theorem generate_succ {σ γ : Type} (s : Service σ γ) (longURL : String) (inp : CreateRequest)
    (n : Nat) (w : World σ γ) :
    Shorten.generate s longURL inp (n + 1) w =
      match (s.gen.NewCode w.gen).1 with
      | .error err => (.error err, { w with gen := (s.gen.NewCode w.gen).2 })
      | .ok code =>
        if !validAlias code then
          Shorten.generate s longURL inp n { w with gen := (s.gen.NewCode w.gen).2 }
        else
          match (s.store.Create w.store
              { ID := 0, Code := code, LongURL := longURL, CreatedAt := s.nowFunc w.clock,
                ExpiresAt := inp.ExpiresAt, Hits := 0 }).1 with
          | none =>
            (.ok { ID := 0, Code := code, LongURL := longURL, CreatedAt := s.nowFunc w.clock,
                   ExpiresAt := inp.ExpiresAt, Hits := 0 },
              { store := (s.store.Create w.store
                  { ID := 0, Code := code, LongURL := longURL, CreatedAt := s.nowFunc w.clock,
                    ExpiresAt := inp.ExpiresAt, Hits := 0 }).2,
                gen := (s.gen.NewCode w.gen).2, clock := w.clock + 1 })
          | some err =>
            if !IsConflict err then
              (.error err,
                { store := (s.store.Create w.store
                    { ID := 0, Code := code, LongURL := longURL, CreatedAt := s.nowFunc w.clock,
                      ExpiresAt := inp.ExpiresAt, Hits := 0 }).2,
                  gen := (s.gen.NewCode w.gen).2, clock := w.clock + 1 })
            else
              Shorten.generate s longURL inp n
                { store := (s.store.Create w.store
                    { ID := 0, Code := code, LongURL := longURL, CreatedAt := s.nowFunc w.clock,
                      ExpiresAt := inp.ExpiresAt, Hits := 0 }).2,
                  gen := (s.gen.NewCode w.gen).2, clock := w.clock + 1 } := by
  rw [Shorten.generate]
  simp only [Service.now]


theorem generate_logged {σ γ : Type} (s : Service σ γ) (longURL : String)
    (inp : CreateRequest) (n : Nat) :
    ∀ w : World (σ × List StoreCall) (γ × List (Except Err String)),
      ∃ newS newG,
        (Shorten.generate s.logged longURL inp n w).2.store.2 = w.store.2 ++ newS ∧
        (Shorten.generate s.logged longURL inp n w).2.gen.2 = w.gen.2 ++ newG ∧
        LoopSpec longURL inp n (Shorten.generate s.logged longURL inp n w).1 newS newG := by
  induction n with
  | zero =>
    intro w
    refine ⟨[], [], by simp [Shorten.generate], by simp [Shorten.generate], ?_⟩
    exact
      { gen_le := by simp
        creates := by simp
        codes := rfl
        fields := by simp [inserts]
        ok := by simp [Shorten.generate]
        exhausted := by simp [Shorten.generate] }
  | succ n ih =>
    intro w
    rw [generate_succ]
    simp only [Service.logged, CodeGenerator.logged, Store.logged]
    cases hg : (s.gen.NewCode w.gen.1).1 with
    | error err =>
      refine ⟨[], [.error err], by simp, by simp, ?_⟩
      exact
        { gen_le := by simp
          creates := by simp
          codes := rfl
          fields := by simp [inserts]
          ok := by simp
          exhausted := by
            intro h
            obtain ⟨code, hc, _⟩ := h (.error err) (List.mem_singleton.mpr rfl)
            cases hc }
    | ok code =>
      by_cases hv : validAlias code = true
      · simp only [hv, Bool.not_true, Bool.false_eq_true, if_false]
        generalize hrec : (URL.mk 0 code longURL (s.nowFunc w.clock) inp.ExpiresAt 0) = record
        cases hc : (s.store.Create w.store.1 record).1 with
        | none =>
          refine ⟨[.Create record none], [.ok code], by simp, by simp, ?_⟩
          exact
            { gen_le := by simp
              creates := by simp
              codes := by simp [inserts, candidates, hv, ← hrec]
              fields := by simp [inserts, ← hrec]
              ok := by
                intro r hr
                simp only [Except.ok.injEq] at hr
                subst hr
                exact ⟨[], by simp, by simp⟩
              exhausted := by
                intro _ h
                have := h record none (List.mem_singleton.mpr rfl)
                cases this }
        | some err =>
          by_cases hk : IsConflict err = true
          · simp only [hk, Bool.not_true, Bool.false_eq_true, if_false]
            have herr : err = ErrConflict := (IsConflict_iff err).mp hk
            subst herr
            obtain ⟨newS, newG, h1, h2, spec⟩ := ih
              { store := ((s.store.Create w.store.1 record).2,
                  w.store.2 ++ [.Create record (some ErrConflict)]),
                gen := ((s.gen.NewCode w.gen.1).2, w.gen.2 ++ [.ok code]),
                clock := w.clock + 1 }
            refine ⟨.Create record (some ErrConflict) :: newS, .ok code :: newG, ?_, ?_, ?_⟩
            · simpa [Service.logged, CodeGenerator.logged, Store.logged] using h1
            · simpa [Service.logged, CodeGenerator.logged, Store.logged] using h2
            · simp only [Service.logged, CodeGenerator.logged, Store.logged] at spec
              exact
                { gen_le := by simpa using spec.gen_le
                  creates := by
                    intro c hc'
                    rcases List.mem_cons.mp hc' with h | h
                    · exact ⟨record, some ErrConflict, h⟩
                    · exact spec.creates c h
                  codes := by
                    simp only [inserts, candidates, hv, if_true, List.map_cons, spec.codes,
                      ← hrec]
                  fields := by
                    intro u hu
                    simp only [inserts, List.mem_cons] at hu
                    rcases hu with h | h
                    · subst h
                      simp [← hrec]
                    · exact spec.fields u h
                  ok := by
                    intro r hr
                    obtain ⟨init, hi, hall⟩ := spec.ok r hr
                    refine ⟨.Create record (some ErrConflict) :: init, by simp [hi], ?_⟩
                    intro c hc'
                    rcases List.mem_cons.mp hc' with h | h
                    · exact ⟨record, h⟩
                    · exact hall c h
                  exhausted := by
                    intro hG hS
                    have := spec.exhausted
                      (fun o ho => hG o (List.mem_cons_of_mem _ ho))
                      (fun u e hu => hS u e (List.mem_cons_of_mem _ hu))
                    exact ⟨by simp [this.1], this.2⟩ }
          · simp only [hk, Bool.not_false, if_true]
            refine ⟨[.Create record (some err)], [.ok code], by simp, by simp, ?_⟩
            exact
              { gen_le := by simp
                creates := by simp
                codes := by simp [inserts, candidates, hv, ← hrec]
                fields := by simp [inserts, ← hrec]
                ok := by simp
                exhausted := by
                  intro _ h
                  have := h record (some err) (List.mem_singleton.mpr rfl)
                  simp only [Option.some.injEq] at this
                  subst this
                  exact absurd rfl hk }
      · simp only [hv, Bool.not_false, if_true]
        obtain ⟨newS, newG, h1, h2, spec⟩ := ih
          { w with gen := ((s.gen.NewCode w.gen.1).2, w.gen.2 ++ [.ok code]) }
        refine ⟨newS, .ok code :: newG, ?_, ?_, ?_⟩
        · simpa [Service.logged, CodeGenerator.logged, Store.logged] using h1
        · simpa [Service.logged, CodeGenerator.logged, Store.logged] using h2
        · simp only [Service.logged, CodeGenerator.logged, Store.logged] at spec
          exact
            { gen_le := by simpa using spec.gen_le
              creates := spec.creates
              codes := by
                simp only [candidates, hv, Bool.false_eq_true, if_false, spec.codes]
              fields := spec.fields
              ok := spec.ok
              exhausted := by
                intro hG _
                obtain ⟨code', hc, hv'⟩ := hG (.ok code) (List.mem_cons_self _ _)
                simp only [Except.ok.injEq] at hc
                subst hc
                exact absurd hv' hv }


theorem inserts_length_of_creates (cs : List StoreCall) (h : ∀ c ∈ cs, ∃ u e, c = .Create u e) :
    (inserts cs).length = cs.length := by
  induction cs with
  | nil => rfl
  | cons c cs ih =>
    obtain ⟨u, e, hc⟩ := h c (List.mem_cons_self _ _)
    subst hc
    simp only [inserts, List.length_cons, ih (fun d hd => h d (List.mem_cons_of_mem _ hd))]

theorem candidates_length_le (os : List (Except Err String)) :
    (candidates os).length ≤ os.length := by
  induction os with
  | nil => simp [candidates]
  | cons o os ih =>
    cases o with
    | error e => simp only [candidates, List.length_cons]; omega
    | ok code =>
      simp only [candidates]
      split
      · simp only [List.length_cons]; omega
      · simp only [List.length_cons]; omega

theorem candidates_length_of_valid (os : List (Except Err String))
    (h : ∀ o ∈ os, ∃ code, o = .ok code ∧ validAlias code = true) :
    (candidates os).length = os.length := by
  induction os with
  | nil => rfl
  | cons o os ih =>
    obtain ⟨code, ho, hv⟩ := h o (List.mem_cons_self _ _)
    subst ho
    simp only [candidates, hv, if_true, List.length_cons,
      ih (fun d hd => h d (List.mem_cons_of_mem _ hd))]

/-- The journals of a loop run are bounded by its number of iterations. -/
theorem LoopSpec.store_le {longURL : String} {inp : CreateRequest} {n : Nat}
    {res : Except Err URL} {newS : List StoreCall} {newG : List (Except Err String)}
    (spec : LoopSpec longURL inp n res newS newG) : newS.length ≤ n := by
  have h1 := inserts_length_of_creates newS spec.creates
  have h2 : (inserts newS).length = (candidates newG).length := by
    rw [← spec.codes, List.length_map]
  have h3 := candidates_length_le newG
  have h4 := spec.gen_le
  omega

theorem pastExpiry_eq {σ γ : Type} (s : Service σ γ) (inp : CreateRequest) (w : World σ γ) :
    Shorten.pastExpiry s inp w =
      match inp.ExpiresAt with
      | none => (false, w)
      | some e => (decide (e < s.nowFunc w.clock), { w with clock := w.clock + 1 }) := by
  unfold Shorten.pastExpiry Service.now
  rfl

theorem pastExpiry_store {σ γ : Type} (s : Service σ γ) (inp : CreateRequest) (w : World σ γ) :
    (Shorten.pastExpiry s inp w).2.store = w.store ∧
    (Shorten.pastExpiry s inp w).2.gen = w.gen := by
  rw [pastExpiry_eq]
  cases inp.ExpiresAt <;> simp

/-- The custom-alias branch, journalled: at most one insert attempt, no generator call. -/
theorem custom_logged {σ γ : Type} (s : Service σ γ) (longURL : String) (inp : CreateRequest)
    (w : World (σ × List StoreCall) (γ × List (Except Err String))) :
    ∃ newS,
      (Shorten.custom s.logged longURL inp w).2.store.2 = w.store.2 ++ newS ∧
      (Shorten.custom s.logged longURL inp w).2.gen = w.gen ∧
      newS.length ≤ 1 ∧ (∀ c ∈ newS, ∃ u e, c = .Create u e) ∧
      (validAlias inp.Custom = true → ∃ u e, newS = [.Create u e] ∧ u.Code = inp.Custom) ∧
      (∀ u ∈ inserts newS, u.LongURL = longURL) ∧
      ∀ record, (Shorten.custom s.logged longURL inp w).1 = .ok record →
        newS = [.Create record none] := by
  unfold Shorten.custom
  by_cases hv : validAlias inp.Custom = true
  · simp only [hv, Bool.not_true, Bool.false_eq_true, if_false, Service.now, Service.logged,
      Store.logged]
    generalize hrec : (URL.mk 0 inp.Custom longURL (s.nowFunc w.clock) inp.ExpiresAt 0) = record
    have hcode : record.Code = inp.Custom := by rw [← hrec]
    have hlong : record.LongURL = longURL := by rw [← hrec]
    cases hc : (s.store.Create w.store.1 record).1 with
    | none =>
      refine ⟨[.Create record none], by simp, by simp, by simp, by simp, ?_, ?_, ?_⟩
      · intro _
        exact ⟨record, none, rfl, hcode⟩
      · simp [inserts, hlong]
      · simp
    | some err =>
      refine ⟨[.Create record (some err)], ?_, ?_, by simp, by simp, ?_, ?_, ?_⟩
      · by_cases hk : IsConflict err = true <;> simp [hk]
      · by_cases hk : IsConflict err = true <;> simp [hk]
      · intro _
        exact ⟨record, some err, rfl, hcode⟩
      · simp [inserts, hlong]
      · by_cases hk : IsConflict err = true <;> simp [hk]
  · simp only [hv, Bool.not_false, if_true]
    exact ⟨[], by simp, by simp, by simp, by simp, by simp [hv], by simp [inserts], by simp⟩


/-- The world `Shorten` starts its alias or generated-code branch in: only the clock may
have been read. -/
theorem pastExpiry_logged {σ γ : Type} (s : Service σ γ) (inp : CreateRequest)
    (w : World (σ × List StoreCall) (γ × List (Except Err String))) :
    (Shorten.pastExpiry s.logged inp w).2.store = w.store ∧
    (Shorten.pastExpiry s.logged inp w).2.gen = w.gen :=
  pastExpiry_store s.logged inp w

theorem pastExpiry_false_of {σ γ : Type} (s : Service σ γ) (inp : CreateRequest)
    (w : World σ γ) (h : ∀ e, inp.ExpiresAt = some e → ¬ e < s.nowFunc w.clock) :
    (Shorten.pastExpiry s inp w).1 = false := by
  rw [pastExpiry_eq]
  cases he : inp.ExpiresAt with
  | none => rfl
  | some e => simpa using h e he

/-! ## C10: the retry budget of the generated-code path -/

/-- C10, amended. Run on a journalled store and generator, `Shorten` adds `newG` to the
generator's journal and `newS` to the store's, and in every execution: at most 6 generator
calls and at most 6 store calls are made, all of them insert attempts; a returned record is
that of the last insert attempt, the only one that succeeded, every earlier one having
reported a conflict. In the generated-code path the codes of the insert attempts are, in
order, the generated candidates that pass the syntax check; and when every generator call
returns a candidate that passes the syntax check and every insert attempt reports a
conflict, exactly 6 candidates are generated, exactly 6 insert attempts are made, one per
candidate, and `Shorten` fails with `ErrConflict`. -/
theorem C10_retry_budget {σ γ : Type} (Parse : String → Option ParsedURL) (s : Service σ γ)
    (inp : CreateRequest) (w : World (σ × List StoreCall) (γ × List (Except Err String))) :
    ∃ newS newG,
      (s.logged.Shorten Parse inp w).2.store.2 = w.store.2 ++ newS ∧
      (s.logged.Shorten Parse inp w).2.gen.2 = w.gen.2 ++ newG ∧
      newG.length ≤ 6 ∧ newS.length ≤ 6 ∧ (∀ c ∈ newS, ∃ u e, c = .Create u e) ∧
      (∀ record, (s.logged.Shorten Parse inp w).1 = .ok record →
        ∃ init, newS = init ++ [.Create record none] ∧
          ∀ c ∈ init, ∃ u, c = .Create u (some ErrConflict)) ∧
      (TrimSpace inp.Custom = "" →
        (∃ longURL, normalizeAndValidateURL Parse inp.URL = .ok longURL) →
        (∀ e, inp.ExpiresAt = some e → ¬ e < s.nowFunc w.clock) →
        (inserts newS).map URL.Code = candidates newG ∧
        ((∀ o ∈ newG, ∃ code, o = .ok code ∧ validAlias code = true) →
          (∀ u e, StoreCall.Create u e ∈ newS → e = some ErrConflict) →
          newG.length = 6 ∧ newS.length = 6 ∧
          (s.logged.Shorten Parse inp w).1 = .error ErrConflict)) := by
  unfold Service.Shorten
  cases hn : normalizeAndValidateURL Parse inp.URL with
  | error e =>
    refine ⟨[], [], by simp, by simp, by simp, by simp, by simp, by simp, ?_⟩
    intro _ h
    obtain ⟨l, hl⟩ := h
    cases hl
  | ok longURL =>
    simp only
    have hp := pastExpiry_logged s inp w
    by_cases hpast : (Shorten.pastExpiry s.logged inp w).1 = true
    · simp only [hpast, if_true]
      refine ⟨[], [], by simp [hp.1], by simp [hp.2], by simp, by simp, by simp, by simp, ?_⟩
      intro _ _ hexp
      have := pastExpiry_false_of s.logged inp w hexp
      rw [this] at hpast
      cases hpast
    · simp only [hpast, Bool.false_eq_true, if_false]
      by_cases hc : TrimSpace inp.Custom = ""
      · simp only [hc, bne_self_eq_false, Bool.false_eq_true, if_false]
        obtain ⟨newS, newG, h1, h2, spec⟩ :=
          generate_logged s longURL inp generateRetries (Shorten.pastExpiry s.logged inp w).2
        rw [hp.1] at h1
        rw [hp.2] at h2
        have hle := spec.store_le
        have hge := spec.gen_le
        refine ⟨newS, newG, h1, h2, hge, hle, spec.creates, spec.ok, ?_⟩
        intro _ _ _
        refine ⟨spec.codes, ?_⟩
        intro hG hS
        have hex := spec.exhausted hG hS
        refine ⟨hex.1, ?_, hex.2⟩
        have h3 := inserts_length_of_creates newS spec.creates
        have h4 : (inserts newS).length = (candidates newG).length := by
          rw [← spec.codes, List.length_map]
        have h5 := candidates_length_of_valid newG hG
        have h6 : newG.length = 6 := hex.1
        omega
      · have hne : (TrimSpace inp.Custom != "") = true := by simpa using hc
        simp only [hne, if_true]
        obtain ⟨newS, h1, h2, h3, h4, _, _, h7⟩ :=
          custom_logged s longURL inp (Shorten.pastExpiry s.logged inp w).2
        rw [hp.1] at h1
        rw [hp.2] at h2
        refine ⟨newS, [], h1, by simp [h2], by simp, by omega, h4, ?_, ?_⟩
        · intro record hr
          exact ⟨[], by simp [h7 record hr], by simp⟩
        · intro hblank
          exact absurd hblank hc


/-! ## Journalling does not change what the service does -/

theorem generate_erase {σ γ : Type} (s : Service σ γ) (longURL : String) (inp : CreateRequest)
    (n : Nat) :
    ∀ w : World (σ × List StoreCall) (γ × List (Except Err String)),
      (Shorten.generate s.logged longURL inp n w).1 =
        (Shorten.generate s longURL inp n w.erase).1 ∧
      (Shorten.generate s.logged longURL inp n w).2.erase =
        (Shorten.generate s longURL inp n w.erase).2 := by
  induction n with
  | zero => intro w; simp [Shorten.generate]
  | succ n ih =>
    intro w
    rw [generate_succ, generate_succ]
    simp only [Service.logged, CodeGenerator.logged, Store.logged, World.erase]
    cases hg : (s.gen.NewCode w.gen.1).1 with
    | error err => simp
    | ok code =>
      by_cases hv : validAlias code = true
      · simp only [hv, Bool.not_true, Bool.false_eq_true, if_false]
        generalize (URL.mk 0 code longURL (s.nowFunc w.clock) inp.ExpiresAt 0) = record
        cases hc : (s.store.Create w.store.1 record).1 with
        | none => simp
        | some err =>
          by_cases hk : IsConflict err = true
          · simp only [hk, Bool.not_true, Bool.false_eq_true, if_false]
            exact ih _
          · simp [hk]
      · simp only [hv, Bool.not_false, if_true]
        exact ih _

theorem custom_erase {σ γ : Type} (s : Service σ γ) (longURL : String) (inp : CreateRequest)
    (w : World (σ × List StoreCall) (γ × List (Except Err String))) :
    (Shorten.custom s.logged longURL inp w).1 = (Shorten.custom s longURL inp w.erase).1 ∧
    (Shorten.custom s.logged longURL inp w).2.erase =
      (Shorten.custom s longURL inp w.erase).2 := by
  unfold Shorten.custom
  by_cases hv : validAlias inp.Custom = true
  · simp only [hv, Bool.not_true, Bool.false_eq_true, if_false, Service.now, Service.logged,
      Store.logged, World.erase]
    generalize (URL.mk 0 inp.Custom longURL (s.nowFunc w.clock) inp.ExpiresAt 0) = record
    cases hc : (s.store.Create w.store.1 record).1 with
    | none => simp
    | some err => by_cases hk : IsConflict err = true <;> simp [hk]
  · simp [hv]

theorem pastExpiry_erase {σ γ : Type} (s : Service σ γ) (inp : CreateRequest)
    (w : World (σ × List StoreCall) (γ × List (Except Err String))) :
    (Shorten.pastExpiry s.logged inp w).1 = (Shorten.pastExpiry s inp w.erase).1 ∧
    (Shorten.pastExpiry s.logged inp w).2.erase = (Shorten.pastExpiry s inp w.erase).2 := by
  rw [pastExpiry_eq, pastExpiry_eq]
  cases inp.ExpiresAt <;> simp [World.erase, Service.logged]

/-- The journalled service returns what the service returns, and leaves the world the
service leaves. -/
theorem Shorten_erase {σ γ : Type} (Parse : String → Option ParsedURL) (s : Service σ γ)
    (inp : CreateRequest) (w : World (σ × List StoreCall) (γ × List (Except Err String))) :
    (s.logged.Shorten Parse inp w).1 = (s.Shorten Parse inp w.erase).1 ∧
    (s.logged.Shorten Parse inp w).2.erase = (s.Shorten Parse inp w.erase).2 := by
  unfold Service.Shorten
  cases hn : normalizeAndValidateURL Parse inp.URL with
  | error e => simp
  | ok longURL =>
    simp only
    have hp := pastExpiry_erase s inp w
    rw [hp.1]
    by_cases hpast : (Shorten.pastExpiry s inp w.erase).1 = true
    · simp only [hpast, if_true, hp.2, and_self]
    · simp only [hpast, Bool.false_eq_true, if_false]
      by_cases hc : TrimSpace inp.Custom = ""
      · simp only [hc, bne_self_eq_false, Bool.false_eq_true, if_false]
        rw [← hp.2]
        exact generate_erase s longURL inp generateRetries _
      · have hne : (TrimSpace inp.Custom != "") = true := by simpa using hc
        simp only [hne, if_true]
        rw [← hp.2]
        exact custom_erase s longURL inp _


theorem Resolve_erase {σ γ : Type} (s : Service σ γ) (code : String)
    (w : World (σ × List StoreCall) (γ × List (Except Err String))) :
    (s.logged.Resolve code w).1 = (s.Resolve code w.erase).1 ∧
    (s.logged.Resolve code w).2.erase = (s.Resolve code w.erase).2 := by
  unfold Service.Resolve
  by_cases hv : validAlias code = true
  · simp only [hv, Bool.not_true, Bool.false_eq_true, if_false, Service.logged, Store.logged,
      World.erase]
    cases hf : (s.store.FindByCode w.store.1 code).1 with
    | error err => by_cases hk : IsNotFound err = true <;> simp [hk]
    | ok r =>
      simp only [isExpired]
      cases r.ExpiresAt with
      | none => simp
      | some e =>
        simp only [Service.now]
        split <;> simp
  · simp [hv]

theorem Metadata_erase {σ γ : Type} (s : Service σ γ) (code : String)
    (w : World (σ × List StoreCall) (γ × List (Except Err String))) :
    (s.logged.Metadata code w).1 = (s.Metadata code w.erase).1 ∧
    (s.logged.Metadata code w).2.erase = (s.Metadata code w.erase).2 := by
  unfold Service.Metadata
  by_cases hv : validAlias code = true
  · simp only [hv, Bool.not_true, Bool.false_eq_true, if_false, Service.logged, Store.logged,
      World.erase]
    cases hf : (s.store.FindByCode w.store.1 code).1 with
    | error err => by_cases hk : IsNotFound err = true <;> simp [hk]
    | ok r => simp
  · simp [hv]

theorem RecordHit_erase {σ γ : Type} (s : Service σ γ) (code : String)
    (w : World (σ × List StoreCall) (γ × List (Except Err String))) :
    (s.logged.RecordHit code w).1 = (s.RecordHit code w.erase).1 ∧
    (s.logged.RecordHit code w).2.erase = (s.RecordHit code w.erase).2 := by
  unfold Service.RecordHit
  by_cases hv : validAlias code = true
  · simp [hv, Service.logged, Store.logged, World.erase]
  · simp [hv]

theorem CleanupExpired_erase {σ γ : Type} (s : Service σ γ)
    (w : World (σ × List StoreCall) (γ × List (Except Err String))) :
    (s.logged.CleanupExpired w).1 = (s.CleanupExpired w.erase).1 ∧
    (s.logged.CleanupExpired w).2.erase = (s.CleanupExpired w.erase).2 := by
  unfold Service.CleanupExpired
  simp [Service.now, Service.logged, Store.logged, World.erase]

/-- Over any sequence of calls, the journalled service leaves the world the service
leaves. -/
theorem run_erase {σ γ : Type} (Parse : String → Option ParsedURL) (s : Service σ γ)
    (cs : List Call) :
    ∀ w : World (σ × List StoreCall) (γ × List (Except Err String)),
      (s.logged.run Parse cs w).erase = s.run Parse cs w.erase := by
  induction cs with
  | nil => intro w; rfl
  | cons c cs ih =>
    intro w
    simp only [Service.run]
    rw [ih]
    congr 1
    cases c with
    | Shorten inp => exact (Shorten_erase Parse s inp w).2
    | Resolve code => exact (Resolve_erase s code w).2
    | Metadata code => exact (Metadata_erase s code w).2
    | RecordHit code => exact (RecordHit_erase s code w).2
    | CleanupExpired => exact (CleanupExpired_erase s w).2

/-! ## `Shorten` over the SQLite store -/

theorem any_hasCode_false {rows : List URL} {code : String}
    (h : ∀ r ∈ rows, r.Code ≠ code) : rows.any (sqlite.hasCode code) = false := by
  rw [List.any_eq_false]
  intro r hr
  simp [sqlite.hasCode, h r hr]

theorem any_hasCode_true {rows : List URL} {code : String}
    (h : ∃ r ∈ rows, r.Code = code) : rows.any (sqlite.hasCode code) = true := by
  rw [List.any_eq_true]
  obtain ⟨r, hr, hc⟩ := h
  exact ⟨r, hr, by simp [sqlite.hasCode, hc]⟩

theorem Create_free (db : sqlite.DB) (u : URL) (h : ∀ r ∈ db.rows, r.Code ≠ u.Code) :
    sqlite.Create db u =
      (none, { rows := db.rows ++ [sqlite.inserted db.seq u], seq := db.seq + 1 }) := by
  simp [sqlite.Create, any_hasCode_false h, sqlite.inserted]

theorem Create_taken (db : sqlite.DB) (u : URL) (h : ∃ r ∈ db.rows, r.Code = u.Code) :
    sqlite.Create db u = (some ErrConflict, db) := by
  simp [sqlite.Create, any_hasCode_true h]

/-- An insert on the SQLite store either succeeds on a free code or reports a conflict
and leaves the table as it was. -/
theorem Create_cases (db : sqlite.DB) (u : URL) :
    ((∀ r ∈ db.rows, r.Code ≠ u.Code) ∧ (sqlite.Create db u).1 = none) ∨
    ((∃ r ∈ db.rows, r.Code = u.Code) ∧ sqlite.Create db u = (some ErrConflict, db)) := by
  by_cases h : ∃ r ∈ db.rows, r.Code = u.Code
  · exact Or.inr ⟨h, Create_taken db u h⟩
  · have h' : ∀ r ∈ db.rows, r.Code ≠ u.Code := by
      intro r hr hc
      exact h ⟨r, hr, hc⟩
    exact Or.inl ⟨h', by rw [Create_free db u h']⟩

theorem generate_sqlite {γ : Type} (G : CodeGenerator γ) (clk : Nat → Time) (l : String)
    (inp : CreateRequest) (n : Nat) :
    ∀ w : World sqlite.DB γ,
      (∀ record, (Shorten.generate (NewService sqlite.Store G clk) l inp n w).1 = .ok record →
        Created l inp w.store
          (Shorten.generate (NewService sqlite.Store G clk) l inp n w).2.store record) ∧
      (∀ e, (Shorten.generate (NewService sqlite.Store G clk) l inp n w).1 = .error e →
        (Shorten.generate (NewService sqlite.Store G clk) l inp n w).2.store = w.store) := by
  induction n with
  | zero => intro w; simp [Shorten.generate]
  | succ n ih =>
    intro w
    rw [generate_succ]
    simp only [NewService, sqlite.Store]
    cases hg : (G.NewCode w.gen).1 with
    | error err => simp
    | ok code =>
      by_cases hv : validAlias code = true
      · simp only [hv, Bool.not_true, Bool.false_eq_true, if_false]
        generalize hrec : (URL.mk 0 code l (clk w.clock) inp.ExpiresAt 0) = record
        rcases Create_cases w.store record with ⟨hfree, hc⟩ | ⟨_, hc⟩
        · rw [hc]
          refine ⟨?_, by simp⟩
          intro r hr
          simp only [Except.ok.injEq] at hr
          subst hr
          rw [Create_free w.store record hfree]
          exact
            { valid := by rw [← hrec]; exact hv
              id := by rw [← hrec]
              long := by rw [← hrec]
              expires := by rw [← hrec]
              hits := by rw [← hrec]
              free := hfree
              stored := rfl }
        · rw [hc]
          simp only [IsConflict, beq_self_eq_true, Bool.not_true, Bool.false_eq_true, if_false]
          have := ih { store := w.store, gen := (G.NewCode w.gen).2, clock := w.clock + 1 }
          simpa [NewService, sqlite.Store] using this
      · simp only [hv, Bool.not_false, if_true]
        have := ih { w with gen := (G.NewCode w.gen).2 }
        simpa [NewService, sqlite.Store] using this

theorem custom_sqlite {γ : Type} (G : CodeGenerator γ) (clk : Nat → Time) (l : String)
    (inp : CreateRequest) (w : World sqlite.DB γ) :
    (∀ record, (Shorten.custom (NewService sqlite.Store G clk) l inp w).1 = .ok record →
      Created l inp w.store
        (Shorten.custom (NewService sqlite.Store G clk) l inp w).2.store record ∧
      record.Code = inp.Custom) ∧
    (∀ e, (Shorten.custom (NewService sqlite.Store G clk) l inp w).1 = .error e →
      (Shorten.custom (NewService sqlite.Store G clk) l inp w).2.store = w.store) := by
  unfold Shorten.custom
  by_cases hv : validAlias inp.Custom = true
  · simp only [hv, Bool.not_true, Bool.false_eq_true, if_false, Service.now, NewService,
      sqlite.Store]
    generalize hrec : (URL.mk 0 inp.Custom l (clk w.clock) inp.ExpiresAt 0) = record
    rcases Create_cases w.store record with ⟨hfree, hc⟩ | ⟨_, hc⟩
    · rw [hc]
      refine ⟨?_, by simp⟩
      intro r hr
      simp only [Except.ok.injEq] at hr
      subst hr
      rw [Create_free w.store record hfree]
      refine ⟨?_, by rw [← hrec]⟩
      exact
        { valid := by rw [← hrec]; exact hv
          id := by rw [← hrec]
          long := by rw [← hrec]
          expires := by rw [← hrec]
          hits := by rw [← hrec]
          free := hfree
          stored := rfl }
    · rw [hc]
      simp [IsConflict]
  · simp [hv]

/-- `Shorten` over the SQLite store: a success stores one row, a failure stores nothing. -/
theorem Shorten_sqlite {γ : Type} (Parse : String → Option ParsedURL) (G : CodeGenerator γ)
    (clk : Nat → Time) (inp : CreateRequest) (w : World sqlite.DB γ) :
    (∀ record, ((NewService sqlite.Store G clk).Shorten Parse inp w).1 = .ok record →
      ∃ l, normalizeAndValidateURL Parse inp.URL = .ok l ∧
        Created l inp w.store
          ((NewService sqlite.Store G clk).Shorten Parse inp w).2.store record) ∧
    (∀ e, ((NewService sqlite.Store G clk).Shorten Parse inp w).1 = .error e →
      ((NewService sqlite.Store G clk).Shorten Parse inp w).2.store = w.store) := by
  unfold Service.Shorten
  cases hn : normalizeAndValidateURL Parse inp.URL with
  | error e => simp
  | ok l =>
    simp only
    have hp := pastExpiry_store (NewService sqlite.Store G clk) inp w
    by_cases hpast : (Shorten.pastExpiry (NewService sqlite.Store G clk) inp w).1 = true
    · simp only [hpast, if_true]
      exact ⟨by simp, fun _ _ => hp.1⟩
    · simp only [hpast, Bool.false_eq_true, if_false]
      by_cases hc : TrimSpace inp.Custom = ""
      · simp only [hc, bne_self_eq_false, Bool.false_eq_true, if_false]
        have := generate_sqlite G clk l inp generateRetries
          (Shorten.pastExpiry (NewService sqlite.Store G clk) inp w).2
        rw [hp.1] at this
        exact ⟨fun r hr => ⟨l, rfl, this.1 r hr⟩, this.2⟩
      · have hne : (TrimSpace inp.Custom != "") = true := by simpa using hc
        simp only [hne, if_true]
        have := custom_sqlite G clk l inp
          (Shorten.pastExpiry (NewService sqlite.Store G clk) inp w).2
        rw [hp.1] at this
        exact ⟨fun r hr => ⟨l, rfl, (this.1 r hr).1⟩, this.2⟩


/-! ## The table over time -/

theorem Create_rows_of_free (db : sqlite.DB) (u : URL) (h : ∀ r ∈ db.rows, r.Code ≠ u.Code) :
    (sqlite.Create db u).2 =
      { rows := db.rows ++ [sqlite.inserted db.seq u], seq := db.seq + 1 } := by
  rw [Create_free db u h]

theorem IncrementHits_rows (db : sqlite.DB) (code : String) :
    (sqlite.IncrementHits db code).2 =
      { rows := db.rows.map fun r =>
          if sqlite.hasCode code r then { r with Hits := r.Hits + 1 } else r,
        seq := db.seq } := by
  unfold sqlite.IncrementHits
  simp only
  split <;> rfl

theorem PurgeExpired_rows (db : sqlite.DB) (now : Time) :
    (sqlite.PurgeExpired db now).2 =
      { rows := db.rows.filter fun r => !sqlite.isPurgeable now r, seq := db.seq } := rfl

theorem sqlite.Change.wf {db db' : sqlite.DB} (h : sqlite.Change db db') (hwf : db.WF) : db'.WF := by
  obtain ⟨hcode, hid, hseq⟩ := hwf
  cases h with
  | same => exact ⟨hcode, hid, hseq⟩
  | create u hfree =>
    rw [Create_rows_of_free db u hfree]
    refine ⟨?_, ?_, ?_⟩
    · simp only [List.map_append, List.map_cons, List.map_nil, sqlite.inserted]
      rw [List.nodup_append]
      refine ⟨hcode, List.nodup_singleton _, ?_⟩
      intro a ha hb
      rw [List.mem_singleton] at hb
      obtain ⟨r, hr, hrc⟩ := List.mem_map.mp ha
      exact hfree r hr (hrc.trans hb)
    · simp only [List.map_append, List.map_cons, List.map_nil, sqlite.inserted]
      rw [List.nodup_append]
      refine ⟨hid, List.nodup_singleton _, ?_⟩
      intro a ha hb
      rw [List.mem_singleton] at hb
      obtain ⟨r, hr, hri⟩ := List.mem_map.mp ha
      have := hseq r hr
      omega
    · intro r hr
      simp only [List.mem_append, List.mem_singleton] at hr
      rcases hr with hr | hr
      · have := hseq r hr
        show r.ID ≤ db.seq + 1
        omega
      · subst hr
        exact Nat.le_refl _
  | hit code =>
    rw [IncrementHits_rows]
    have hc : (db.rows.map fun r =>
        if sqlite.hasCode code r then { r with Hits := r.Hits + 1 } else r).map URL.Code =
        db.rows.map URL.Code := by
      rw [List.map_map]
      apply List.map_congr_left
      intro r _
      simp only [Function.comp]
      split <;> rfl
    have hi : (db.rows.map fun r =>
        if sqlite.hasCode code r then { r with Hits := r.Hits + 1 } else r).map URL.ID =
        db.rows.map URL.ID := by
      rw [List.map_map]
      apply List.map_congr_left
      intro r _
      simp only [Function.comp]
      split <;> rfl
    refine ⟨by rw [hc]; exact hcode, by rw [hi]; exact hid, ?_⟩
    intro r hr
    simp only [List.mem_map] at hr
    obtain ⟨r0, hr0, he⟩ := hr
    have := hseq r0 hr0
    split at he <;> (subst he; exact this)
  | purge now =>
    rw [PurgeExpired_rows]
    refine ⟨?_, ?_, ?_⟩
    · exact hcode.sublist ((List.filter_sublist _).map _)
    · exact hid.sublist ((List.filter_sublist _).map _)
    · intro r hr
      exact hseq r (List.mem_of_mem_filter hr)

theorem sqlite.Later.refl (db : sqlite.DB) : sqlite.Later db db :=
  ⟨Nat.le_refl _, fun r hr _ => ⟨r, hr, rfl, rfl, rfl, rfl, rfl, Nat.le_refl _⟩⟩

theorem sqlite.Later.trans {a b c : sqlite.DB} (hab : sqlite.Later a b) (hbc : sqlite.Later b c) :
    sqlite.Later a c := by
  refine ⟨Nat.le_trans hab.1 hbc.1, ?_⟩
  intro r'' hr'' hid
  obtain ⟨r', hr', h1, h2, h3, h4, h5, h6⟩ := hbc.2 r'' hr'' (Nat.le_trans hid hab.1)
  obtain ⟨r, hr, g1, g2, g3, g4, g5, g6⟩ := hab.2 r' hr' (by omega)
  exact ⟨r, hr, g1.trans h1, g2.trans h2, g3.trans h3, g4.trans h4, g5.trans h5,
    Nat.le_trans g6 h6⟩

theorem sqlite.Change.later {db db' : sqlite.DB} (h : sqlite.Change db db') :
    sqlite.Later db db' := by
  cases h with
  | same => exact sqlite.Later.refl db
  | create u hfree =>
    rw [Create_rows_of_free db u hfree]
    refine ⟨Nat.le_succ _, ?_⟩
    intro r hr hid
    simp only [List.mem_append, List.mem_singleton] at hr
    rcases hr with hr | hr
    · exact ⟨r, hr, rfl, rfl, rfl, rfl, rfl, Nat.le_refl _⟩
    · subst hr
      simp only [sqlite.inserted] at hid
      omega
  | hit code =>
    rw [IncrementHits_rows]
    refine ⟨Nat.le_refl _, ?_⟩
    intro r hr _
    simp only [List.mem_map] at hr
    obtain ⟨r0, hr0, he⟩ := hr
    refine ⟨r0, hr0, ?_⟩
    split at he
    · subst he
      exact ⟨rfl, rfl, rfl, rfl, rfl, Nat.le_succ _⟩
    · subst he
      exact ⟨rfl, rfl, rfl, rfl, rfl, Nat.le_refl _⟩
  | purge now =>
    rw [PurgeExpired_rows]
    refine ⟨Nat.le_refl _, ?_⟩
    intro r hr _
    exact ⟨r, List.mem_of_mem_filter hr, rfl, rfl, rfl, rfl, rfl, Nat.le_refl _⟩

/-- Every call served over the SQLite store changes the table by at most one insert, one
hit increment or one purge. -/
theorem step_change {γ : Type} (Parse : String → Option ParsedURL) (G : CodeGenerator γ)
    (clk : Nat → Time) (c : Call) (w : World sqlite.DB γ) :
    sqlite.Change w.store ((NewService sqlite.Store G clk).step Parse c w).store := by
  cases c with
  | Shorten inp =>
    simp only [Service.step]
    have h := Shorten_sqlite Parse G clk inp w
    cases hr : ((NewService sqlite.Store G clk).Shorten Parse inp w).1 with
    | error e =>
      rw [h.2 e hr]
      exact sqlite.Change.same _
    | ok record =>
      obtain ⟨l, _, hc⟩ := h.1 record hr
      rw [hc.stored, ← Create_rows_of_free w.store record hc.free]
      exact sqlite.Change.create _ _ hc.free
  | Resolve code =>
    simp only [Service.step]
    rw [Resolve_sqlite_store]
    exact sqlite.Change.same _
  | Metadata code =>
    simp only [Service.step]
    rw [Metadata_sqlite_store]
    exact sqlite.Change.same _
  | RecordHit code =>
    simp only [Service.step, Service.RecordHit]
    by_cases hv : validAlias code = true
    · simp only [hv, Bool.not_true, Bool.false_eq_true, if_false, NewService, sqlite.Store]
      exact sqlite.Change.hit _ _
    · simp only [hv, Bool.not_false, if_true]
      exact sqlite.Change.same _
  | CleanupExpired =>
    simp only [Service.step, Service.CleanupExpired, Service.now, NewService, sqlite.Store]
    exact sqlite.Change.purge _ _

/-- Over any sequence of calls the table stays well formed, and is a later state of the
table the sequence started from. -/
theorem run_later {γ : Type} (Parse : String → Option ParsedURL) (G : CodeGenerator γ)
    (clk : Nat → Time) (cs : List Call) :
    ∀ w : World sqlite.DB γ, w.store.WF →
      ((NewService sqlite.Store G clk).run Parse cs w).store.WF ∧
      sqlite.Later w.store ((NewService sqlite.Store G clk).run Parse cs w).store := by
  induction cs with
  | nil => intro w hwf; exact ⟨hwf, sqlite.Later.refl _⟩
  | cons c cs ih =>
    intro w hwf
    have hch := step_change Parse G clk c w
    have h1 := ih _ (hch.wf hwf)
    exact ⟨h1.1, hch.later.trans h1.2⟩


/-! ## C1: round trip -/

/-- C1. Over the SQLite store, whenever `Shorten` succeeds on a creation request (through
the custom alias or a generated code), the destination of the record it returns is the
normalized form of the submitted URL and its row, with the next id, is in the table; and
after any sequence of further calls on the service, if that row is still in the table and
the reading of the clock is not after the expiry of the record, if it has one, `Resolve` on
the returned code succeeds and returns that destination. -/
theorem C1_round_trip {γ : Type} (Parse : String → Option ParsedURL) (G : CodeGenerator γ)
    (clk : Nat → Time) (inp : CreateRequest) (w w1 : World sqlite.DB γ) (record : URL)
    (hwf : w.store.WF)
    (hok : (NewService sqlite.Store G clk).Shorten Parse inp w = (.ok record, w1)) :
    normalizeAndValidateURL Parse inp.URL = .ok record.LongURL ∧
    sqlite.inserted w.store.seq record ∈ w1.store.rows ∧
    ∀ cs : List Call,
      (∃ r ∈ ((NewService sqlite.Store G clk).run Parse cs w1).store.rows,
        r.ID = w.store.seq + 1) →
      (∀ e, record.ExpiresAt = some e →
        clk ((NewService sqlite.Store G clk).run Parse cs w1).clock ≤ e) →
      ∃ r, ((NewService sqlite.Store G clk).Resolve record.Code
          ((NewService sqlite.Store G clk).run Parse cs w1)).1 = .ok r ∧
        r.LongURL = record.LongURL := by
  have hS := Shorten_sqlite Parse G clk inp w
  rw [hok] at hS
  obtain ⟨l, hl, hc⟩ := hS.1 record rfl
  simp only at hc
  have hch := step_change Parse G clk (.Shorten inp) w
  simp only [Service.step, hok] at hch
  have hwf1 : w1.store.WF := hch.wf hwf
  have hmem : sqlite.inserted w.store.seq record ∈ w1.store.rows := by
    rw [hc.stored]
    simp
  refine ⟨by rw [hl, hc.long], hmem, ?_⟩
  intro cs hstored hexp
  obtain ⟨hwf2, hlater⟩ := run_later Parse G clk cs w1 hwf1
  obtain ⟨r2, hr2, hid2⟩ := hstored
  have hseq1 : w1.store.seq = w.store.seq + 1 := by rw [hc.stored]
  obtain ⟨r1, hr1, g1, g2, g3, _, g5, _⟩ := hlater.2 r2 hr2 (by omega)
  have hr1' : r1 = sqlite.inserted w.store.seq record := by
    have hnd := hwf1.2.1
    have h1 : r1.ID = (sqlite.inserted w.store.seq record).ID := by
      rw [g1, hid2]; rfl
    exact List.inj_on_of_nodup_map hnd hr1 hmem h1
  subst hr1'
  simp only [sqlite.inserted] at g2 g3 g5
  have hv2 : validAlias r2.Code = true := by rw [← g2]; exact hc.valid
  have key := Resolve_sqlite_of_mem G clk _ hwf2.1 r2 hr2 hv2
  rw [← g2] at key
  rw [key]
  cases he : r2.ExpiresAt with
  | none => exact ⟨r2, rfl, g3.symm⟩
  | some e =>
    have hle := hexp e (by rw [g5, he])
    have hng : ¬ clk ((NewService sqlite.Store G clk).run Parse cs w1).clock > e :=
      not_lt.mpr hle
    simp only [if_neg hng]
    exact ⟨r2, rfl, g3.symm⟩


/-! ## C3: custom aliases -/

theorem aliasClass_not_space (c : Char) (h : aliasClass c = true) : isSpace c = false := by
  have hlt := aliasClass_toNat c h
  have hge : 45 ≤ c.toNat := by
    simp only [aliasClass, Bool.or_eq_true, Bool.and_eq_true, decide_eq_true_eq, beq_iff_eq,
      char_le_iff] at h
    rcases h with (((h | h) | h) | h) | h
    · have : 'A'.toNat = 65 := by decide
      omega
    · have : 'a'.toNat = 97 := by decide
      omega
    · have : '0'.toNat = 48 := by decide
      omega
    · subst h; decide
    · subst h; decide
  unfold isSpace
  simp only
  rw [if_pos (by omega)]
  simp only [Bool.or_eq_false_iff, beq_eq_false_iff_ne, ne_eq]
  omega

theorem dropWhile_of_all_false {α : Type} (p : α → Bool) (l : List α)
    (h : ∀ c ∈ l, p c = false) : l.dropWhile p = l := by
  cases l with
  | nil => rfl
  | cons c cs => simp [List.dropWhile, h c (List.mem_cons_self _ _)]

/-- A string that passes the syntax check has no white space to trim, and is not blank. -/
theorem TrimSpace_of_valid (a : String) (h : validAlias a = true) :
    TrimSpace a = a ∧ a ≠ "" := by
  obtain ⟨h3, _, hall⟩ := (validAlias_iff a).mp h
  have hns : ∀ c ∈ a.data, isSpace c = false := fun c hc => aliasClass_not_space c (hall c hc)
  refine ⟨?_, ?_⟩
  · unfold TrimSpace
    rw [dropWhile_of_all_false isSpace a.data hns,
      dropWhile_of_all_false isSpace a.data.reverse (fun c hc => hns c (List.mem_reverse.mp hc)),
      List.reverse_reverse]
  · intro he
    subst he
    exact absurd h3 (by decide)

theorem custom_logged_sqlite_free {γ : Type} (G : CodeGenerator γ) (clk : Nat → Time)
    (l : String) (inp : CreateRequest)
    (w : World (sqlite.DB × List StoreCall) (γ × List (Except Err String)))
    (hv : validAlias inp.Custom = true) (hfree : ∀ r ∈ w.store.1.rows, r.Code ≠ inp.Custom) :
    Shorten.custom (NewService sqlite.Store G clk).logged l inp w =
      (.ok (URL.mk 0 inp.Custom l (clk w.clock) inp.ExpiresAt 0),
        { store :=
            ({ rows := w.store.1.rows ++
                  [sqlite.inserted w.store.1.seq
                    (URL.mk 0 inp.Custom l (clk w.clock) inp.ExpiresAt 0)],
               seq := w.store.1.seq + 1 },
              w.store.2 ++
                [.Create (URL.mk 0 inp.Custom l (clk w.clock) inp.ExpiresAt 0) none]),
          gen := w.gen, clock := w.clock + 1 }) := by
  unfold Shorten.custom
  simp only [hv, Bool.not_true, Bool.false_eq_true, if_false, Service.now, Service.logged,
    Store.logged, NewService, sqlite.Store]
  rw [Create_free w.store.1 _ hfree]

theorem custom_logged_sqlite_taken {γ : Type} (G : CodeGenerator γ) (clk : Nat → Time)
    (l : String) (inp : CreateRequest)
    (w : World (sqlite.DB × List StoreCall) (γ × List (Except Err String)))
    (hv : validAlias inp.Custom = true) (htaken : ∃ r ∈ w.store.1.rows, r.Code = inp.Custom) :
    Shorten.custom (NewService sqlite.Store G clk).logged l inp w =
      (.error ErrConflict,
        { store :=
            (w.store.1,
              w.store.2 ++
                [.Create (URL.mk 0 inp.Custom l (clk w.clock) inp.ExpiresAt 0)
                  (some ErrConflict)]),
          gen := w.gen, clock := w.clock + 1 }) := by
  unfold Shorten.custom
  simp only [hv, Bool.not_true, Bool.false_eq_true, if_false, Service.now, Service.logged,
    Store.logged, NewService, sqlite.Store]
  rw [Create_taken w.store.1 _ htaken]
  simp [IsConflict]

/-- `Shorten` with an alias that passes the syntax check, on an accepted destination and
expiry, is its custom-alias branch. -/
theorem Shorten_custom_eq {σ γ : Type} (Parse : String → Option ParsedURL) (s : Service σ γ)
    (inp : CreateRequest) (w : World σ γ) (l : String)
    (hurl : normalizeAndValidateURL Parse inp.URL = .ok l)
    (hexp : ∀ e, inp.ExpiresAt = some e → ¬ e < s.nowFunc w.clock)
    (hv : validAlias inp.Custom = true) :
    s.Shorten Parse inp w = Shorten.custom s l inp (Shorten.pastExpiry s inp w).2 := by
  unfold Service.Shorten
  rw [hurl]
  simp only [pastExpiry_false_of s inp w hexp, Bool.false_eq_true, if_false]
  have := TrimSpace_of_valid inp.Custom hv
  rw [this.1]
  have hne : (inp.Custom != "") = true := by simpa using this.2
  simp only [hne, if_true]

/-- A row that is still in the table after a sequence of calls on the journalled service
over the SQLite store has kept its code. -/
theorem code_kept_logged {γ : Type} (Parse : String → Option ParsedURL) (G : CodeGenerator γ)
    (clk : Nat → Time) (cs : List Call)
    (w1 : World (sqlite.DB × List StoreCall) (γ × List (Except Err String)))
    (hwf1 : w1.store.1.WF) (r1 : URL) (hr1 : r1 ∈ w1.store.1.rows)
    (h : ∃ r ∈ ((NewService sqlite.Store G clk).logged.run Parse cs w1).store.1.rows,
      r.ID = r1.ID) :
    ∃ r ∈ ((NewService sqlite.Store G clk).logged.run Parse cs w1).store.1.rows,
      r.Code = r1.Code := by
  have he := run_erase Parse (NewService sqlite.Store G clk) cs w1
  have hst : ((NewService sqlite.Store G clk).logged.run Parse cs w1).store.1 =
      ((NewService sqlite.Store G clk).run Parse cs w1.erase).store := by
    rw [← he]; rfl
  rw [hst] at h ⊢
  obtain ⟨_, hlater⟩ := run_later Parse G clk cs w1.erase hwf1
  obtain ⟨r2, hr2, hid⟩ := h
  have hle : r2.ID ≤ w1.erase.store.seq := by
    rw [hid]; exact hwf1.2.2 r1 hr1
  obtain ⟨r0, hr0, g1, g2, _⟩ := hlater.2 r2 hr2 hle
  have : r0 = r1 := List.inj_on_of_nodup_map hwf1.2.1 hr0 hr1 (g1.trans hid)
  subst this
  exact ⟨r2, hr2, g2.symm⟩

/-- C3. Over the journalled SQLite store, for a request whose alias passes the syntax check,
whose destination is valid and whose expiry is absent or not before the reading of the
clock: when no row has the alias, `Shorten` succeeds with a record whose code is the alias,
its row is added to the table, exactly one call is made on the store, the insert of that
record, and no call is made on the generator. In every world where a row has the alias,
and so after any sequence of further calls that leaves the row of the first record in
the table, `Shorten` on such a request with that alias fails with `ErrConflict` after one
insert attempt and leaves the table, the first record in it, as it was. -/
theorem C3_custom_alias {γ : Type} (Parse : String → Option ParsedURL) (G : CodeGenerator γ)
    (clk : Nat → Time) (inp : CreateRequest) (l : String)
    (w : World (sqlite.DB × List StoreCall) (γ × List (Except Err String)))
    (hwf : w.store.1.WF)
    (hurl : normalizeAndValidateURL Parse inp.URL = .ok l)
    (hexp : ∀ e, inp.ExpiresAt = some e → ¬ e < clk w.clock)
    (hv : validAlias inp.Custom = true)
    (hfree : ∀ r ∈ w.store.1.rows, r.Code ≠ inp.Custom) :
    (∃ record w1,
      (NewService sqlite.Store G clk).logged.Shorten Parse inp w = (.ok record, w1) ∧
      record.Code = inp.Custom ∧ record.LongURL = l ∧ record.Hits = 0 ∧
      w1.store.2 = w.store.2 ++ [.Create record none] ∧ w1.gen = w.gen ∧
      w1.store.1.rows = w.store.1.rows ++ [sqlite.inserted w.store.1.seq record] ∧
      ∀ (cs : List Call) (inp2 : CreateRequest) (l2 : String),
        inp2.Custom = inp.Custom →
        normalizeAndValidateURL Parse inp2.URL = .ok l2 →
        (∀ e, inp2.ExpiresAt = some e →
          ¬ e < clk ((NewService sqlite.Store G clk).logged.run Parse cs w1).clock) →
        (∃ r ∈ ((NewService sqlite.Store G clk).logged.run Parse cs w1).store.1.rows,
          r.ID = w.store.1.seq + 1) →
        ∃ u w3,
          (NewService sqlite.Store G clk).logged.Shorten Parse inp2
            ((NewService sqlite.Store G clk).logged.run Parse cs w1)
              = (.error ErrConflict, w3) ∧
          w3.store.1 = ((NewService sqlite.Store G clk).logged.run Parse cs w1).store.1 ∧
          w3.gen = ((NewService sqlite.Store G clk).logged.run Parse cs w1).gen ∧
          w3.store.2 = ((NewService sqlite.Store G clk).logged.run Parse cs w1).store.2
            ++ [.Create u (some ErrConflict)] ∧
          u.Code = inp.Custom) ∧
    ∀ (inp2 : CreateRequest) (l2 : String)
      (w2 : World (sqlite.DB × List StoreCall) (γ × List (Except Err String))),
      inp2.Custom = inp.Custom →
      normalizeAndValidateURL Parse inp2.URL = .ok l2 →
      (∀ e, inp2.ExpiresAt = some e → ¬ e < clk w2.clock) →
      (∃ r ∈ w2.store.1.rows, r.Code = inp.Custom) →
      ∃ u w3,
        (NewService sqlite.Store G clk).logged.Shorten Parse inp2 w2 = (.error ErrConflict, w3) ∧
        w3.store.1 = w2.store.1 ∧ w3.gen = w2.gen ∧
        w3.store.2 = w2.store.2 ++ [.Create u (some ErrConflict)] ∧ u.Code = inp.Custom := by
  have taken : ∀ (inp2 : CreateRequest) (l2 : String)
      (w2 : World (sqlite.DB × List StoreCall) (γ × List (Except Err String))),
      inp2.Custom = inp.Custom →
      normalizeAndValidateURL Parse inp2.URL = .ok l2 →
      (∀ e, inp2.ExpiresAt = some e → ¬ e < clk w2.clock) →
      (∃ r ∈ w2.store.1.rows, r.Code = inp.Custom) →
      ∃ u w3,
        (NewService sqlite.Store G clk).logged.Shorten Parse inp2 w2 = (.error ErrConflict, w3) ∧
        w3.store.1 = w2.store.1 ∧ w3.gen = w2.gen ∧
        w3.store.2 = w2.store.2 ++ [.Create u (some ErrConflict)] ∧ u.Code = inp.Custom := by
    intro inp2 l2 w2 hcust hurl2 hexp2 htaken
    have hv2 : validAlias inp2.Custom = true := by rw [hcust]; exact hv
    have hp := pastExpiry_store (NewService sqlite.Store G clk).logged inp2 w2
    rw [Shorten_custom_eq Parse _ inp2 w2 l2 hurl2 hexp2 hv2,
      custom_logged_sqlite_taken G clk l2 inp2 _ hv2 (by rw [hp.1, hcust]; exact htaken)]
    refine ⟨URL.mk 0 inp2.Custom l2
      (clk (Shorten.pastExpiry (NewService sqlite.Store G clk).logged inp2 w2).2.clock)
      inp2.ExpiresAt 0, _, rfl, ?_, ?_, ?_, hcust⟩
    · simp only [hp.1]
    · simp only [hp.2]
    · rw [hp.1]
  refine ⟨?_, taken⟩
  have hp := pastExpiry_store (NewService sqlite.Store G clk).logged inp w
  rw [Shorten_custom_eq Parse _ inp w l hurl hexp hv,
    custom_logged_sqlite_free G clk l inp _ hv (by rw [hp.1]; exact hfree)]
  refine ⟨_, _, rfl, rfl, rfl, rfl, ?_, ?_, ?_, ?_⟩
  · simp only [hp.1]
  · simp only [hp.2]
  · simp only [hp.1]
  · intro cs inp2 l2 hcust hurl2 hexp2 hstored
    apply taken inp2 l2 _ hcust hurl2 hexp2
    rw [hp.1] at hstored ⊢
    generalize hrec : URL.mk 0 inp.Custom l
      (clk (Shorten.pastExpiry (NewService sqlite.Store G clk).logged inp w).2.clock)
      inp.ExpiresAt 0 = record at hstored ⊢
    have hrc : record.Code = inp.Custom := by rw [← hrec]
    have hfree' : ∀ r ∈ w.store.1.rows, r.Code ≠ record.Code := by rw [hrc]; exact hfree
    have hwf1 : sqlite.DB.WF
        { rows := w.store.1.rows ++ [sqlite.inserted w.store.1.seq record],
          seq := w.store.1.seq + 1 } := by
      have hch := sqlite.Change.create w.store.1 record hfree'
      rw [Create_rows_of_free w.store.1 record hfree'] at hch
      exact hch.wf hwf
    have := code_kept_logged Parse G clk cs _ hwf1 (sqlite.inserted w.store.1.seq record)
      (by simp) hstored
    simpa [sqlite.inserted, hrc] using this

/-! ## The base62 generator -/

theorem alphabetAt_aliasClass : ∀ i : Fin 62, aliasClass (alphabetAt i) = true := by decide

theorem alphabetAt_mem : ∀ i : Fin 62, alphabetAt i ∈ alphabet.data := by decide

/-- With a source that does not fail, the loop of `RandomBase62` appends `n` characters of
the alphabet to the builder and makes `n` draws. -/
theorem RandomBase62_loop_ok (src : RandSource) (hsrc : ∀ k, ∃ i, src k = .ok i) (n : Nat) :
    ∀ (b : List Char) (k : Nat),
      ∃ cs : List Char, cs.length = n ∧ (∀ c ∈ cs, ∃ i, c = alphabetAt i) ∧
        RandomBase62.loop src n b k = (.ok (String.mk (b ++ cs)), k + n) := by
  induction n with
  | zero => intro b k; exact ⟨[], rfl, by simp, by simp [RandomBase62.loop]⟩
  | succ n ih =>
    intro b k
    obtain ⟨i, hi⟩ := hsrc k
    obtain ⟨cs, hlen, hall, heq⟩ := ih (b ++ [alphabetAt i]) (k + 1)
    refine ⟨alphabetAt i :: cs, by simp [hlen], ?_, ?_⟩
    · intro c hc
      rcases List.mem_cons.mp hc with h | h
      · exact ⟨i, h⟩
      · exact hall c h
    · rw [RandomBase62.loop, hi]
      simp only
      rw [heq]
      simp only [List.append_assoc, List.singleton_append, Prod.mk.injEq, true_and]
      omega

/-- The length of the codes of a generator configured with `length`. -/
theorem NewGenerator_length (length : Int) :
    (NewGenerator length).length = if length ≤ 0 then 7 else length := rfl

/-- With a source that does not fail, `NewCode` returns a code of the generator's length
over the alphabet. -/
theorem NewCode_ok (src : RandSource) (hsrc : ∀ k, ∃ i, src k = .ok i) (length : Int)
    (k : Nat) :
    ∃ code : String,
      ((NewGenerator length).NewCode src k).1 = .ok code ∧
      code.length = (if length ≤ 0 then 7 else length).toNat ∧
      (∀ c ∈ code.data, ∃ i, c = alphabetAt i) := by
  unfold Generator.NewCode RandomBase62
  rw [NewGenerator_length]
  have hn : (if (if length ≤ 0 then (7 : Int) else length) ≤ 0 then 7
      else (if length ≤ 0 then (7 : Int) else length)) = (if length ≤ 0 then 7 else length) := by
    by_cases h : length ≤ 0
    · simp [h]
    · simp [h]
  simp only [hn]
  obtain ⟨cs, hlen, hall, heq⟩ :=
    RandomBase62_loop_ok src hsrc (if length ≤ 0 then (7 : Int) else length).toNat [] k
  rw [heq]
  refine ⟨String.mk ([] ++ cs), rfl, ?_, ?_⟩
  · show ([] ++ cs).length = _
    simpa using hlen
  · simpa using hall

/-- In the generated-code loop over the SQLite store, a first candidate that passes the
syntax check and is free is inserted at once. -/
theorem generate_first_free {γ : Type} (G : CodeGenerator γ) (clk : Nat → Time) (l : String)
    (inp : CreateRequest) (n : Nat) (w : World sqlite.DB γ) (code : String)
    (hg : (G.NewCode w.gen).1 = .ok code) (hv : validAlias code = true)
    (hfree : ∀ r ∈ w.store.rows, r.Code ≠ code) :
    Shorten.generate (NewService sqlite.Store G clk) l inp (n + 1) w =
      (.ok (URL.mk 0 code l (clk w.clock) inp.ExpiresAt 0),
        { store :=
            { rows := w.store.rows ++
                [sqlite.inserted w.store.seq (URL.mk 0 code l (clk w.clock) inp.ExpiresAt 0)],
              seq := w.store.seq + 1 },
          gen := (G.NewCode w.gen).2, clock := w.clock + 1 }) := by
  rw [generate_succ]
  simp only [NewService, sqlite.Store, hg, hv, Bool.not_true, Bool.false_eq_true, if_false]
  rw [Create_free w.store _ hfree]

/-- `Shorten` with a blank alias, on an accepted destination and expiry, is the
generated-code loop. -/
theorem Shorten_generate_eq {σ γ : Type} (Parse : String → Option ParsedURL) (s : Service σ γ)
    (inp : CreateRequest) (w : World σ γ) (l : String)
    (hurl : normalizeAndValidateURL Parse inp.URL = .ok l)
    (hexp : ∀ e, inp.ExpiresAt = some e → ¬ e < s.nowFunc w.clock)
    (hblank : TrimSpace inp.Custom = "") :
    s.Shorten Parse inp w =
      Shorten.generate s l inp generateRetries (Shorten.pastExpiry s inp w).2 := by
  unfold Service.Shorten
  rw [hurl]
  simp only [pastExpiry_false_of s inp w hexp, Bool.false_eq_true, if_false, hblank,
    bne_self_eq_false]


/-- Over the SQLite store, a record just inserted resolves, with no hits, at a reading of
the clock not after its expiry. -/
theorem Resolve_after_insert {γ : Type} (G : CodeGenerator γ) (clk : Nat → Time)
    (db : sqlite.DB) (record : URL) (w1 : World sqlite.DB γ) (hwf : db.WF)
    (hv : validAlias record.Code = true) (hfree : ∀ r ∈ db.rows, r.Code ≠ record.Code)
    (hst : w1.store =
      { rows := db.rows ++ [sqlite.inserted db.seq record], seq := db.seq + 1 })
    (hexp : ∀ e, record.ExpiresAt = some e → clk w1.clock ≤ e) :
    ∃ r, ((NewService sqlite.Store G clk).Resolve record.Code w1).1 = .ok r ∧
      r.LongURL = record.LongURL ∧ r.Hits = 0 := by
  have hwf1 : w1.store.WF := by
    have hch := sqlite.Change.create db record hfree
    rw [Create_rows_of_free db record hfree, ← hst] at hch
    exact hch.wf hwf
  have hmem : sqlite.inserted db.seq record ∈ w1.store.rows := by
    rw [hst]; simp
  have key := Resolve_sqlite_of_mem G clk w1 hwf1.1 (sqlite.inserted db.seq record) hmem hv
  have hic : (sqlite.inserted db.seq record).Code = record.Code := rfl
  have hie : (sqlite.inserted db.seq record).ExpiresAt = record.ExpiresAt := rfl
  rw [hic, hie] at key
  rw [key]
  cases he : record.ExpiresAt with
  | none => exact ⟨_, rfl, rfl, rfl⟩
  | some e =>
    have hle := hexp e he
    simp only [if_neg (not_lt.mpr hle)]
    exact ⟨_, rfl, rfl, rfl⟩

/-! ## C2: generated codes -/

/-- C2, amended. Over the SQLite store and the base62 generator configured with a code
length between 3 and 64, or with a length of 0 or less, which stands for 7: for a request
with a valid destination, a blank alias and an expiry absent or not before the reading of
the clock, a random source that does not fail and a table with no row under the generated
candidate, `Shorten` succeeds with a record whose code has exactly that length, every
character of it drawn from the 62-character alphabet; and `Resolve` on that code right
afterwards, at a reading of the clock not after the expiry, returns the same normalized
destination with hit count 0. -/
theorem C2_generated_code (Parse : String → Option ParsedURL) (src : RandSource)
    (clk : Nat → Time) (length : Int) (inp : CreateRequest) (l : String)
    (w : World sqlite.DB Nat)
    (hsrc : ∀ k, ∃ i, src k = .ok i)
    (hlen : (3 ≤ length ∧ length ≤ 64) ∨ length ≤ 0)
    (hurl : normalizeAndValidateURL Parse inp.URL = .ok l)
    (hblank : TrimSpace inp.Custom = "")
    (hexp : ∀ e, inp.ExpiresAt = some e → ¬ e < clk w.clock)
    (hwf : w.store.WF)
    (hfree : ∀ r ∈ w.store.rows, ((NewGenerator length).NewCode src w.gen).1 ≠ .ok r.Code) :
    ∃ record w1,
      (NewService sqlite.Store ((NewGenerator length).asCodeGenerator src) clk).Shorten
        Parse inp w = (.ok record, w1) ∧
      record.Code.length = (if length ≤ 0 then 7 else length).toNat ∧
      (∀ c ∈ record.Code.data, c ∈ alphabet.data) ∧ alphabet.length = 62 ∧
      record.LongURL = l ∧ record.Hits = 0 ∧
      ((∀ e, inp.ExpiresAt = some e → clk w1.clock ≤ e) →
        ∃ r, ((NewService sqlite.Store ((NewGenerator length).asCodeGenerator src) clk).Resolve
            record.Code w1).1 = .ok r ∧ r.LongURL = l ∧ r.Hits = 0) := by
  obtain ⟨code, hcode, hclen, hchars⟩ := NewCode_ok src hsrc length w.gen
  have hv : validAlias code = true := by
    rw [validAlias_iff]
    refine ⟨?_, ?_, ?_⟩
    · rw [hclen]
      rcases hlen with ⟨h3, _⟩ | h0
      · rw [if_neg (by omega)]; omega
      · rw [if_pos h0]; decide
    · rw [hclen]
      rcases hlen with ⟨_, h64⟩ | h0
      · rw [if_neg (by omega)]; omega
      · rw [if_pos h0]; decide
    · intro c hc
      obtain ⟨i, hi⟩ := hchars c hc
      rw [hi]
      exact alphabetAt_aliasClass i
  have hfree' : ∀ r ∈ w.store.rows, r.Code ≠ code := by
    intro r hr he
    exact hfree r hr (by rw [hcode, he])
  have hp := pastExpiry_store
    (NewService sqlite.Store ((NewGenerator length).asCodeGenerator src) clk) inp w
  have hgen : (((NewGenerator length).asCodeGenerator src).NewCode
      (Shorten.pastExpiry (NewService sqlite.Store ((NewGenerator length).asCodeGenerator src)
        clk) inp w).2.gen).1 = .ok code := by
    rw [hp.2]; exact hcode
  rw [Shorten_generate_eq Parse _ inp w l hurl hexp hblank]
  have hstep := generate_first_free ((NewGenerator length).asCodeGenerator src) clk l inp 5
    (Shorten.pastExpiry (NewService sqlite.Store ((NewGenerator length).asCodeGenerator src)
      clk) inp w).2 code hgen hv (by rw [hp.1]; exact hfree')
  have h6 : generateRetries = 5 + 1 := rfl
  rw [h6, hstep]
  refine ⟨_, _, rfl, hclen, ?_, by decide, rfl, rfl, ?_⟩
  · intro c hc
    obtain ⟨i, hi⟩ := hchars c hc
    rw [hi]
    exact alphabetAt_mem i
  · intro hexp1
    exact Resolve_after_insert _ clk _ _ _ (by rw [hp.1]; exact hwf) hv
      (by rw [hp.1]; exact hfree') rfl hexp1


/-! ## C6: the destination check -/

theorem inserts_append (a b : List StoreCall) : inserts (a ++ b) = inserts a ++ inserts b := by
  induction a with
  | nil => rfl
  | cons c cs ih =>
    cases c <;> simp [inserts, ih]

/-- Every record `Shorten` hands to the store, and the record it returns, carries the
normalized destination. -/
theorem Shorten_logged_destination {σ γ : Type} (Parse : String → Option ParsedURL)
    (s : Service σ γ) (inp : CreateRequest)
    (w : World (σ × List StoreCall) (γ × List (Except Err String))) (l : String)
    (hurl : normalizeAndValidateURL Parse inp.URL = .ok l) :
    ∃ newS,
      (s.logged.Shorten Parse inp w).2.store.2 = w.store.2 ++ newS ∧
      (∀ u ∈ inserts newS, u.LongURL = l) ∧
      ∀ record, (s.logged.Shorten Parse inp w).1 = .ok record → record.LongURL = l := by
  unfold Service.Shorten
  rw [hurl]
  simp only
  have hp := pastExpiry_logged s inp w
  by_cases hpast : (Shorten.pastExpiry s.logged inp w).1 = true
  · simp only [hpast, if_true]
    exact ⟨[], by simp [hp.1], by simp [inserts], by simp⟩
  · simp only [hpast, Bool.false_eq_true, if_false]
    by_cases hc : TrimSpace inp.Custom = ""
    · simp only [hc, bne_self_eq_false, Bool.false_eq_true, if_false]
      obtain ⟨newS, newG, h1, _, spec⟩ :=
        generate_logged s l inp generateRetries (Shorten.pastExpiry s.logged inp w).2
      rw [hp.1] at h1
      refine ⟨newS, h1, fun u hu => (spec.fields u hu).2.1, ?_⟩
      intro record hr
      obtain ⟨init, hi, _⟩ := spec.ok record hr
      have hmem : record ∈ inserts newS := by
        rw [hi, inserts_append]
        simp [inserts]
      exact (spec.fields record hmem).2.1
    · have hne : (TrimSpace inp.Custom != "") = true := by simpa using hc
      simp only [hne, if_true]
      obtain ⟨newS, h1, _, _, _, _, h6, h7⟩ :=
        custom_logged s l inp (Shorten.pastExpiry s.logged inp w).2
      rw [hp.1] at h1
      refine ⟨newS, h1, h6, ?_⟩
      intro record hr
      have := h7 record hr
      exact h6 record (by rw [this]; simp [inserts])

theorem normalize_error_iff (Parse : String → Option ParsedURL) (raw : String) :
    normalizeAndValidateURL Parse raw = .error ErrInvalidURL ↔
      (TrimSpace raw = "" ∨ 2048 < (TrimSpace raw).utf8ByteSize ∨
        Parse (TrimSpace raw) = none ∨
        ∃ p, Parse (TrimSpace raw) = some p ∧
          ((p.Scheme ≠ "http" ∧ p.Scheme ≠ "https") ∨ p.Host = "")) := by
  unfold normalizeAndValidateURL
  simp only [len, maxURLLength]
  by_cases h1 : TrimSpace raw = ""
  · simp [h1]
  by_cases h2 : 2048 < (TrimSpace raw).utf8ByteSize
  · simp [h2]
  cases hp : Parse (TrimSpace raw) with
  | none => simp [h1, h2]
  | some p =>
    by_cases h3 : p.Scheme ≠ "http" ∧ p.Scheme ≠ "https"
    · simp [h1, h2, h3]
    · by_cases h4 : p.Host = ""
      · simp [h1, h2, h4]
      · have : ¬ ((p.Scheme != "http" && p.Scheme != "https") = true) := by
          simpa using h3
        simp [h1, h2, h3, h4, this]

theorem normalize_error_only (Parse : String → Option ParsedURL) (raw : String) (e : Err)
    (h : normalizeAndValidateURL Parse raw = .error e) : e = ErrInvalidURL := by
  unfold normalizeAndValidateURL at h
  simp only at h
  split at h
  · cases h; rfl
  · split at h
    · cases h; rfl
    · split at h
      · cases h; rfl
      · split at h
        · cases h; rfl
        · cases h

theorem normalize_ok_text (Parse : String → Option ParsedURL) (raw : String) (p : ParsedURL)
    (hp : Parse (TrimSpace raw) = some p)
    (h : normalizeAndValidateURL Parse raw ≠ .error ErrInvalidURL) :
    normalizeAndValidateURL Parse raw = .ok p.Text := by
  cases hn : normalizeAndValidateURL Parse raw with
  | error e =>
    have := normalize_error_only Parse raw e hn
    subst this
    exact absurd hn h
  | ok l =>
    unfold normalizeAndValidateURL at hn
    simp only [hp] at hn
    split at hn
    · cases hn
    · split at hn
      · cases hn
      · split at hn
        · cases hn
        · exact hn.symm ▸ rfl

/-- C6, amended. The destination check of `Shorten` fails with `ErrInvalidURL` exactly when
the white-space-trimmed destination is empty, is longer than 2048 bytes in UTF-8, fails
to parse, has a scheme that is neither `http` nor `https`, or has an empty host; then
`Shorten` fails with `ErrInvalidURL` and hands back the world as it was, the journals of
the store and of the generator included: no record is created. Otherwise the normalized
destination is the re-serialized parsed URL, and it is the destination of every record
`Shorten` hands to the store and of the record it returns. In particular, with a parser
that finds no scheme in `not-a-url`, as `url.Parse` does, `Shorten` on `not-a-url` fails
with `ErrInvalidURL` and no record is created. -/
theorem C6_destination_check {σ γ : Type} (Parse : String → Option ParsedURL)
    (s : Service σ γ) (inp : CreateRequest)
    (w : World (σ × List StoreCall) (γ × List (Except Err String))) :
    (normalizeAndValidateURL Parse inp.URL = .error ErrInvalidURL ↔
      (TrimSpace inp.URL = "" ∨ 2048 < (TrimSpace inp.URL).utf8ByteSize ∨
        Parse (TrimSpace inp.URL) = none ∨
        ∃ p, Parse (TrimSpace inp.URL) = some p ∧
          ((p.Scheme ≠ "http" ∧ p.Scheme ≠ "https") ∨ p.Host = ""))) ∧
    (normalizeAndValidateURL Parse inp.URL = .error ErrInvalidURL →
      s.logged.Shorten Parse inp w = (.error ErrInvalidURL, w)) ∧
    (∀ p, Parse (TrimSpace inp.URL) = some p →
      normalizeAndValidateURL Parse inp.URL ≠ .error ErrInvalidURL →
      normalizeAndValidateURL Parse inp.URL = .ok p.Text ∧
      ∃ newS,
        (s.logged.Shorten Parse inp w).2.store.2 = w.store.2 ++ newS ∧
        (∀ u ∈ inserts newS, u.LongURL = p.Text) ∧
        ∀ record, (s.logged.Shorten Parse inp w).1 = .ok record → record.LongURL = p.Text) ∧
    ((∀ p, Parse "not-a-url" = some p → p.Scheme = "") → inp.URL = "not-a-url" →
      s.logged.Shorten Parse inp w = (.error ErrInvalidURL, w)) := by
  have hfail : normalizeAndValidateURL Parse inp.URL = .error ErrInvalidURL →
      s.logged.Shorten Parse inp w = (.error ErrInvalidURL, w) := by
    intro h
    unfold Service.Shorten
    rw [h]
  refine ⟨normalize_error_iff Parse inp.URL, hfail, ?_, ?_⟩
  · intro p hp hne
    have hok := normalize_ok_text Parse inp.URL p hp hne
    exact ⟨hok, Shorten_logged_destination Parse s inp w p.Text hok⟩
  · intro hscheme hurl
    apply hfail
    rw [normalize_error_iff, hurl]
    have ht : TrimSpace "not-a-url" = "not-a-url" := by decide
    rw [ht]
    cases hp : Parse "not-a-url" with
    | none => exact Or.inr (Or.inr (Or.inl rfl))
    | some p =>
      refine Or.inr (Or.inr (Or.inr ⟨p, rfl, Or.inl ?_⟩))
      rw [hscheme p hp]
      decide


/-! ## C7: expiry at creation -/

/-- C7, amended. For a valid destination and a supplied expiry strictly before the reading
of the clock, `Shorten` fails with `ErrInvalidURL`; only the clock has been read, the store
and the generator (and their journals) are as they were: no record is created. An expiry
that is not before the reading, equal to it included, is accepted: `Shorten` goes on to
its custom-alias branch or its generated-code loop. -/
theorem C7_expiry_at_creation {σ γ : Type} (Parse : String → Option ParsedURL)
    (s : Service σ γ) (inp : CreateRequest) (w : World σ γ) (l : String) (e : Time)
    (hurl : normalizeAndValidateURL Parse inp.URL = .ok l)
    (he : inp.ExpiresAt = some e) :
    (e < s.nowFunc w.clock →
      s.Shorten Parse inp w = (.error ErrInvalidURL, { w with clock := w.clock + 1 })) ∧
    (¬ e < s.nowFunc w.clock →
      s.Shorten Parse inp w =
        if TrimSpace inp.Custom != "" then
          Shorten.custom s l inp { w with clock := w.clock + 1 }
        else
          Shorten.generate s l inp generateRetries { w with clock := w.clock + 1 }) := by
  unfold Service.Shorten
  rw [hurl]
  simp only [pastExpiry_eq, he]
  refine ⟨?_, ?_⟩
  · intro h
    simp [h]
  · intro h
    simp [h]

/-! ## C8: the expiry boundary at resolution -/

/-- C8, amended. Over the SQLite store, a stored record whose expiry is exactly the
reading of the clock at resolution is not treated as expired: `Resolve` succeeds and
returns it. `Resolve` fails with `ErrExpired` on a record whose expiry is strictly before
the reading. -/
theorem C8_expiry_boundary {γ : Type} (G : CodeGenerator γ) (clk : Nat → Time)
    (w : World sqlite.DB γ) (r : URL) (hwf : w.store.WF) (hr : r ∈ w.store.rows)
    (hv : validAlias r.Code = true) :
    (r.ExpiresAt = some (clk w.clock) →
      (NewService sqlite.Store G clk).Resolve r.Code w =
        (.ok r, { w with clock := w.clock + 1 })) ∧
    (∀ e, r.ExpiresAt = some e → e < clk w.clock →
      (NewService sqlite.Store G clk).Resolve r.Code w =
        (.error ErrExpired, { w with clock := w.clock + 1 })) := by
  have key := Resolve_sqlite_of_mem G clk w hwf.1 r hr hv
  refine ⟨?_, ?_⟩
  · intro he
    rw [key, he]
    simp
  · intro e he hlt
    rw [key, he]
    simp only [gt_iff_lt, hlt, if_true]

/-! ## C9: malformed aliases -/

/-- C9, amended. For a supplied alias that is not blank and is too short (fewer than 3
characters), too long (more than 64) or has a character outside `[A-Za-z0-9_-]`: on a
valid destination with an expiry absent or not before the reading of the clock, `Shorten`
fails with `ErrInvalidCode`, the store and the generator left as they were; on an invalid
destination it fails with `ErrInvalidURL`, the destination being checked first. -/
theorem C9_malformed_alias {σ γ : Type} (Parse : String → Option ParsedURL)
    (s : Service σ γ) (inp : CreateRequest) (w : World σ γ)
    (hbad : inp.Custom.length < 3 ∨ 64 < inp.Custom.length ∨
      ∃ c ∈ inp.Custom.data, ¬ (('A' ≤ c ∧ c ≤ 'Z') ∨ ('a' ≤ c ∧ c ≤ 'z') ∨
        ('0' ≤ c ∧ c ≤ '9') ∨ c = '_' ∨ c = '-'))
    (hnb : TrimSpace inp.Custom ≠ "") :
    (∀ l, normalizeAndValidateURL Parse inp.URL = .ok l →
      (∀ e, inp.ExpiresAt = some e → ¬ e < s.nowFunc w.clock) →
      (s.Shorten Parse inp w).1 = .error ErrInvalidCode ∧
      (s.Shorten Parse inp w).2.store = w.store ∧ (s.Shorten Parse inp w).2.gen = w.gen) ∧
    (∀ e, normalizeAndValidateURL Parse inp.URL = .error e →
      s.Shorten Parse inp w = (.error ErrInvalidURL, w)) := by
  have hinv : validAlias inp.Custom = false := by
    rw [validAlias_eq_false_iff]
    rcases hbad with h | h | ⟨c, hc, hn⟩
    · exact Or.inl h
    · exact Or.inr (Or.inl h)
    · refine Or.inr (Or.inr ⟨c, hc, ?_⟩)
      rw [← Bool.not_eq_true, aliasClass_iff]
      exact hn
  refine ⟨?_, ?_⟩
  · intro l hurl hexp
    have hp := pastExpiry_store s inp w
    have hne : (TrimSpace inp.Custom != "") = true := by simpa using hnb
    unfold Service.Shorten
    rw [hurl]
    simp only [pastExpiry_false_of s inp w hexp, Bool.false_eq_true, if_false, hne, if_true,
      Shorten.custom, hinv, Bool.not_false, true_and]
    exact ⟨hp.1, hp.2⟩
  · intro e he
    unfold Service.Shorten
    rw [he]


/-! ## The claims on concrete requests -/

/-- C1 on a concrete request: the destination shortened under a generated code is resolved
after a hit has been recorded and a cleanup has run. -/
theorem C1_round_trip_witness :
    ∃ r, ((sample.service 7).Resolve "0123456"
        ((sample.service 7).run sample.Parse [.RecordHit "0123456", .CleanupExpired]
          { store := { rows := [⟨1, "0123456", "https://example.com/a", 100, none, 0⟩],
                       seq := 1 },
            gen := 7, clock := 1 })).1 = .ok r ∧
      r.LongURL = "https://example.com/a" :=
  (C1_round_trip sample.Parse ((NewGenerator 7).asCodeGenerator sample.cycling)
    (sample.clock 100 1) ⟨"https://example.com/a", "", none⟩ sample.fresh
    { store := { rows := [⟨1, "0123456", "https://example.com/a", 100, none, 0⟩], seq := 1 },
      gen := 7, clock := 1 }
    ⟨0, "0123456", "https://example.com/a", 100, none, 0⟩
    (by decide) (by decide)).2.2
    [.RecordHit "0123456", .CleanupExpired] (by decide) (by simp)

/-- C2 as stated fails for a configured code length of 2: the destination is valid, no
alias is given, the random source does not fail and the table is empty, and `Shorten` fails
with `ErrConflict` after 6 candidates of 2 characters. -/
theorem C2_counterexample :
    (∀ k, ∃ i, sample.cycling k = .ok i) ∧
    normalizeAndValidateURL sample.Parse "https://example.com/a"
      = .ok "https://example.com/a" ∧
    (sample.service 2).Shorten sample.Parse ⟨"https://example.com/a", "", none⟩ sample.fresh
      = (.error ErrConflict, { store := sqlite.empty, gen := 12, clock := 0 }) :=
  ⟨fun _ => ⟨_, rfl⟩, by decide, by decide⟩

/-- C2, amended, on a concrete request with the default code length 7. -/
theorem C2_generated_code_witness :
    ∃ record w1,
      (sample.service 7).Shorten sample.Parse ⟨"https://example.com/a", "", none⟩ sample.fresh
        = (.ok record, w1) ∧
      record.Code.length = 7 ∧
      (∀ c ∈ record.Code.data, c ∈ alphabet.data) ∧ alphabet.length = 62 ∧
      record.LongURL = "https://example.com/a" ∧ record.Hits = 0 ∧
      ((∀ e, (none : Option Time) = some e → sample.clock 100 1 w1.clock ≤ e) →
        ∃ r, ((sample.service 7).Resolve record.Code w1).1 = .ok r ∧
          r.LongURL = "https://example.com/a" ∧ r.Hits = 0) :=
  C2_generated_code sample.Parse sample.cycling (sample.clock 100 1) 7
    ⟨"https://example.com/a", "", none⟩ "https://example.com/a" sample.fresh
    (fun k => ⟨_, rfl⟩) (by decide) (by decide) (by decide) (by simp) (by decide)
    (by intro r hr; cases hr)

/-- C3 on the concrete scenario: the alias `vimal` on a fresh database succeeds with one
insert and no generator call, and `Shorten` with the same alias and another destination
right afterwards fails with `ErrConflict`, the table left as it was. -/
theorem C3_custom_alias_witness :
    ∃ record w1,
      (sample.service 7).logged.Shorten sample.Parse ⟨"https://example.com", "vimal", none⟩
        sample.freshLogged = (.ok record, w1) ∧
      record.Code = "vimal" ∧ record.LongURL = "https://example.com" ∧
      w1.store.2 = [.Create record none] ∧ w1.gen = (0, []) ∧
      ∃ w3,
        (sample.service 7).logged.Shorten sample.Parse ⟨"https://example.com/2", "vimal", none⟩
          w1 = (.error ErrConflict, w3) ∧
        w3.store.1 = w1.store.1 := by
  obtain ⟨record, w1, h1, h2, h3, _, h5, h6, h7, hsub⟩ :=
    (C3_custom_alias sample.Parse ((NewGenerator 7).asCodeGenerator sample.cycling)
      (sample.clock 100 1) ⟨"https://example.com", "vimal", none⟩ "https://example.com"
      sample.freshLogged (by decide) (by decide) (by simp) (by decide)
      (by intro r hr; cases hr)).1
  obtain ⟨u, w3, g1, g2, _⟩ := hsub [] ⟨"https://example.com/2", "vimal", none⟩
    "https://example.com/2" rfl (by decide) (by simp)
    ⟨sqlite.inserted 0 record, by simp only [Service.run]; rw [h7]; simp [sample.freshLogged,
      sqlite.empty], rfl⟩
  exact ⟨record, w1, h1, h2, h3, h5, h6, w3, g1, g2⟩

/-- C4 on a concrete table: the record that expires at 100 resolves at the reading 99 and
is expired at the reading 101. -/
theorem C4_resolve_expiry_witness :
    ((NewService sqlite.Store (scripted fun _ => .ok "abcdefg") (sample.clock 99 2)).Resolve
        "abc" sample.expiring).1 =
      .ok ⟨1, "abc", "https://x.test", 90, some 100, 0⟩ ∧
    ((NewService sqlite.Store (scripted fun _ => .ok "abcdefg") (sample.clock 99 2)).Resolve
        "abc"
        ((NewService sqlite.Store (scripted fun _ => .ok "abcdefg")
          (sample.clock 99 2)).Resolve "abc" sample.expiring).2).1 = .error ErrExpired :=
  ((C4_resolve_expiry (scripted fun _ => .ok "abcdefg") (sample.clock 99 2) sample.expiring
    "abc" (by decide) (by decide)).2 ⟨1, "abc", "https://x.test", 90, some 100, 0⟩
    (by decide) rfl).2.2.2 1 (by decide) (by decide) (by decide)

/-- C5 on the concrete scenario: the code `ab` is rejected and the journal of the store
stays empty. -/
theorem C5_code_syntax_check_witness :
    (sample.service 7).logged.Resolve "ab" sample.freshLogged
      = (.error ErrInvalidCode, sample.freshLogged) ∧
    (sample.service 7).logged.Metadata "ab" sample.freshLogged
      = (.error ErrInvalidCode, sample.freshLogged) ∧
    (sample.service 7).logged.RecordHit "ab" sample.freshLogged
      = (some ErrInvalidCode, sample.freshLogged) :=
  have h := (C5_code_syntax_check (sample.service 7).logged sample.freshLogged "ab").2
    (by decide)
  ⟨h.1, h.2.1, h.2.2.1⟩


/-- C6 as stated fails on a destination of 1030 characters that takes 2050 bytes: it is not
empty, not longer than 2048 characters, it parses, with the scheme `https` and the host
`a`, and the destination check fails with `ErrInvalidURL`. -/
theorem C6_counterexample :
    normalizeAndValidateURL sample.Parse sample.longURL = .error ErrInvalidURL ∧
    TrimSpace sample.longURL ≠ "" ∧
    (TrimSpace sample.longURL).length = 1030 ∧
    (TrimSpace sample.longURL).utf8ByteSize = 2050 ∧
    (sample.Parse (TrimSpace sample.longURL)).map (fun p => (p.Scheme, p.Host))
      = some ("https", "a") := by
  set_option maxRecDepth 100000 in decide

/-- C6, amended, on the concrete scenario: `not-a-url` is rejected and the journals stay
empty. -/
theorem C6_destination_check_witness :
    (sample.service 7).logged.Shorten sample.Parse ⟨"not-a-url", "", none⟩ sample.freshLogged
      = (.error ErrInvalidURL, sample.freshLogged) :=
  (C6_destination_check sample.Parse (sample.service 7) ⟨"not-a-url", "", none⟩
    sample.freshLogged).2.2.2 (by decide) rfl

/-- C7 as stated fails for an expiry exactly equal to the reading of the clock: the
destination is valid, the expiry 100 is the reading 100, and `Shorten` succeeds and stores
the record. -/
theorem C7_counterexample :
    sample.clock 100 1 sample.fresh.clock = 100 ∧
    (sample.service 7).Shorten sample.Parse ⟨"https://x.test", "abc", some 100⟩ sample.fresh
      = (.ok ⟨0, "abc", "https://x.test", 101, some 100, 0⟩,
          { store := { rows := [⟨1, "abc", "https://x.test", 101, some 100, 0⟩], seq := 1 },
            gen := 0, clock := 2 }) := by
  decide

/-- C7, amended, on a concrete request: the expiry 99 is before the reading 100. -/
theorem C7_expiry_at_creation_witness :
    (sample.service 7).Shorten sample.Parse ⟨"https://x.test", "abc", some 99⟩ sample.fresh
      = (.error ErrInvalidURL, { sample.fresh with clock := 1 }) :=
  (C7_expiry_at_creation sample.Parse (sample.service 7) ⟨"https://x.test", "abc", some 99⟩
    sample.fresh "https://x.test" 99 (by decide) rfl).1 (by decide)

/-- C8 as stated fails: the record under `abc` expires at 100, the clock reads 100, and
`Resolve` returns the record. -/
theorem C8_counterexample :
    sample.clock 100 1 sample.expiring.clock = 100 ∧
    (sample.service 7).Resolve "abc" sample.expiring
      = (.ok ⟨1, "abc", "https://x.test", 90, some 100, 0⟩,
          { sample.expiring with clock := 1 }) := by
  decide

/-- C8, amended, on the concrete table. -/
theorem C8_expiry_boundary_witness :
    (sample.service 7).Resolve "abc" sample.expiring
      = (.ok ⟨1, "abc", "https://x.test", 90, some 100, 0⟩,
          { sample.expiring with clock := 1 }) :=
  (C8_expiry_boundary ((NewGenerator 7).asCodeGenerator sample.cycling) (sample.clock 100 1)
    sample.expiring ⟨1, "abc", "https://x.test", 90, some 100, 0⟩
    (by decide) (by decide) (by decide)).1 (by decide)

/-- C9 as stated fails on an invalid destination, where `Shorten` with the alias `ab`
fails with `ErrInvalidURL`, and on a blank alias, where `Shorten` with the alias of one
space takes the generated-code path and succeeds. -/
theorem C9_counterexample :
    "ab".length = 2 ∧
    (sample.service 7).Shorten sample.Parse ⟨"not-a-url", "ab", none⟩ sample.fresh
      = (.error ErrInvalidURL, sample.fresh) ∧
    " ".length = 1 ∧
    ((sample.service 7).Shorten sample.Parse ⟨"https://x.test", " ", none⟩ sample.fresh).1
      = .ok ⟨0, "0123456", "https://x.test", 100, none, 0⟩ := by
  decide

/-- C9, amended, on the concrete scenario: the alias `ab` on a valid destination. -/
theorem C9_malformed_alias_witness :
    ((sample.service 7).Shorten sample.Parse ⟨"https://x.test", "ab", none⟩ sample.fresh).1
      = .error ErrInvalidCode :=
  ((C9_malformed_alias sample.Parse (sample.service 7) ⟨"https://x.test", "ab", none⟩
    sample.fresh (Or.inl (by decide)) (by decide)).1 "https://x.test" (by decide)
    (by simp)).1

/-- C10 as stated fails when the candidates do not pass the syntax check: with a code
length of 2 no insert is attempted, so every insert attempt reports a conflict, and
`Shorten` fails with `ErrConflict` after 6 generator calls and no insert attempt. -/
theorem C10_counterexample :
    (sample.service 2).logged.Shorten sample.Parse ⟨"https://example.com/a", "", none⟩
        sample.freshLogged
      = (.error ErrConflict,
          { store := (sqlite.empty, []),
            gen := (12, [.ok "01", .ok "23", .ok "45", .ok "67", .ok "89", .ok "AB"]),
            clock := 0 }) := by
  decide

/-- C10, amended, on a concrete run: the candidate of a scripted generator is taken each
time, every insert attempt reports a conflict, and `Shorten` fails with `ErrConflict`
after exactly 6 calls on the generator and 6 insert attempts. -/
theorem C10_retry_budget_witness :
    ∃ newS newG : List _,
      ((NewService sqlite.Store (scripted fun _ => .ok "abc") (sample.clock 100 1)).logged.Shorten
        sample.Parse ⟨"https://example.com/a", "", none⟩
        { store := (sample.expiring.store, []), gen := (0, []), clock := 0 }).2.store.2
        = newS ∧
      ((NewService sqlite.Store (scripted fun _ => .ok "abc") (sample.clock 100 1)).logged.Shorten
        sample.Parse ⟨"https://example.com/a", "", none⟩
        { store := (sample.expiring.store, []), gen := (0, []), clock := 0 }).2.gen.2
        = newG ∧
      newG.length = 6 ∧ newS.length = 6 ∧
      ((NewService sqlite.Store (scripted fun _ => .ok "abc") (sample.clock 100 1)).logged.Shorten
        sample.Parse ⟨"https://example.com/a", "", none⟩
        { store := (sample.expiring.store, []), gen := (0, []), clock := 0 }).1
        = .error ErrConflict := by
  obtain ⟨newS, newG, h1, h2, _, _, _, _, h7⟩ :=
    C10_retry_budget sample.Parse (NewService sqlite.Store (scripted fun _ => .ok "abc")
      (sample.clock 100 1)) ⟨"https://example.com/a", "", none⟩
      { store := (sample.expiring.store, []), gen := (0, []), clock := 0 }
  simp only [List.nil_append] at h1 h2
  have e1 : ((NewService sqlite.Store (scripted fun _ => .ok "abc")
      (sample.clock 100 1)).logged.Shorten sample.Parse ⟨"https://example.com/a", "", none⟩
      { store := (sample.expiring.store, []), gen := (0, []), clock := 0 }).2.store.2 =
      (List.range 6).map fun k =>
        .Create ⟨0, "abc", "https://example.com/a", 100 + k, none, 0⟩ (some ErrConflict) := by
    decide
  have e2 : ((NewService sqlite.Store (scripted fun _ => .ok "abc")
      (sample.clock 100 1)).logged.Shorten sample.Parse ⟨"https://example.com/a", "", none⟩
      { store := (sample.expiring.store, []), gen := (0, []), clock := 0 }).2.gen.2 =
      List.replicate 6 (.ok "abc") := by
    decide
  have hS := h1.symm.trans e1
  have hG := h2.symm.trans e2
  have hurl : normalizeAndValidateURL sample.Parse "https://example.com/a"
      = .ok "https://example.com/a" := by decide
  have h := (h7 (by decide) ⟨"https://example.com/a", hurl⟩ (by simp)).2
    (by
      intro o ho
      rw [hG] at ho
      have := List.eq_of_mem_replicate ho
      exact ⟨"abc", this, by decide⟩)
    (by
      intro u e hu
      rw [hS] at hu
      simp only [List.mem_map] at hu
      obtain ⟨k, _, hk⟩ := hu
      cases hk
      rfl)
  exact ⟨newS, newG, h1, h2, h.1, h.2.1, h.2.2⟩

/-! ## The base62 generator, whatever the random source does -/

/-- The loop of `RandomBase62`, for any source: a returned string is the builder followed by
`n` characters of the alphabet, and an error is the error of one of the draws. -/
theorem RandomBase62_loop_spec (src : RandSource) (n : Nat) :
    ∀ (b : List Char) (k : Nat),
      (∀ code, (RandomBase62.loop src n b k).1 = .ok code →
        ∃ cs : List Char, cs.length = n ∧ (∀ c ∈ cs, ∃ i, c = alphabetAt i) ∧
          code = String.mk (b ++ cs)) ∧
      (∀ e, (RandomBase62.loop src n b k).1 = .error e → ∃ j, src j = .error e) := by
  induction n with
  | zero =>
    intro b k
    refine ⟨?_, ?_⟩
    · intro code h
      refine ⟨[], rfl, by simp, ?_⟩
      simp only [RandomBase62.loop, Except.ok.injEq] at h
      simp [← h]
    · intro e h
      simp [RandomBase62.loop] at h
  | succ n ih =>
    intro b k
    cases hs : src k with
    | error err =>
      refine ⟨?_, ?_⟩
      · intro code h
        rw [RandomBase62.loop, hs] at h
        simp at h
      · intro e h
        rw [RandomBase62.loop, hs] at h
        simp only [Except.error.injEq] at h
        exact ⟨k, by rw [hs, h]⟩
    | ok i =>
      obtain ⟨ih1, ih2⟩ := ih (b ++ [alphabetAt i]) (k + 1)
      refine ⟨?_, ?_⟩
      · intro code h
        rw [RandomBase62.loop, hs] at h
        obtain ⟨cs, hlen, hall, heq⟩ := ih1 code h
        refine ⟨alphabetAt i :: cs, by simp [hlen], ?_, by simpa using heq⟩
        intro c hc
        rcases List.mem_cons.mp hc with h | h
        · exact ⟨i, h⟩
        · exact hall c h
      · intro e h
        rw [RandomBase62.loop, hs] at h
        exact ih2 e h

/-- The length `NewGenerator` keeps is never replaced again by `RandomBase62`. -/
theorem NewCode_eq (src : RandSource) (length : Int) (k : Nat) :
    (NewGenerator length).NewCode src k = RandomBase62 src length k := by
  unfold Generator.NewCode RandomBase62
  rw [NewGenerator_length]
  by_cases h : length ≤ 0
  · simp [h]
  · simp [h]

/-- A string returned by `RandomBase62`, for any source, has the requested length (7 for a
request of 0 or less) and its characters are characters of the alphabet. -/
theorem RandomBase62_ok_spec (src : RandSource) (n : Int) (k : Nat) (code : String)
    (h : (RandomBase62 src n k).1 = .ok code) :
    code.length = (if n ≤ 0 then 7 else n).toNat ∧ (∀ c ∈ code.data, ∃ i, c = alphabetAt i) := by
  unfold RandomBase62 at h
  obtain ⟨cs, hlen, hall, heq⟩ :=
    (RandomBase62_loop_spec src (if n ≤ 0 then (7 : Int) else n).toNat [] k).1 code h
  subst heq
  refine ⟨?_, ?_⟩
  · show ([] ++ cs).length = _
    simpa using hlen
  · simpa using hall

/-- A code of a generator configured with a length from 3 to 64 passes the syntax check. -/
theorem NewCode_validAlias (src : RandSource) (length : Int) (h3 : 3 ≤ length)
    (h64 : length ≤ 64) (k : Nat) (code : String)
    (h : ((NewGenerator length).NewCode src k).1 = .ok code) : validAlias code = true := by
  rw [NewCode_eq] at h
  obtain ⟨hlen, hall⟩ := RandomBase62_ok_spec src length k code h
  have hpos : ¬ length ≤ 0 := by omega
  simp only [hpos, if_false] at hlen
  rw [validAlias_iff]
  refine ⟨by omega, by omega, ?_⟩
  intro c hc
  obtain ⟨i, hi⟩ := hall c hc
  rw [hi]
  exact alphabetAt_aliasClass i

/-! ## The outcomes in the generator's journal -/

/-- Every outcome the generated-code loop adds to the generator's journal is the outcome of
a call of the generator. -/
theorem generate_logged_outcomes {σ γ : Type} (s : Service σ γ) (longURL : String)
    (inp : CreateRequest) (n : Nat) :
    ∀ w : World (σ × List StoreCall) (γ × List (Except Err String)),
      ∃ newG,
        (Shorten.generate s.logged longURL inp n w).2.gen.2 = w.gen.2 ++ newG ∧
        ∀ o ∈ newG, ∃ g, o = (s.gen.NewCode g).1 := by
  induction n with
  | zero => intro w; exact ⟨[], by simp [Shorten.generate], by simp⟩
  | succ n ih =>
    intro w
    rw [generate_succ]
    simp only [Service.logged, CodeGenerator.logged, Store.logged]
    have hone : ∀ o ∈ [(s.gen.NewCode w.gen.1).1], ∃ g, o = (s.gen.NewCode g).1 := by
      intro o ho
      rw [List.mem_singleton] at ho
      exact ⟨w.gen.1, ho⟩
    cases hg : (s.gen.NewCode w.gen.1).1 with
    | error err =>
      rw [hg] at hone
      exact ⟨[.error err], by simp, hone⟩
    | ok code =>
      rw [hg] at hone
      have hrest : ∀ w1 : World (σ × List StoreCall) (γ × List (Except Err String)),
          w1.gen.2 = w.gen.2 ++ [.ok code] →
          ∃ newG, (Shorten.generate s.logged longURL inp n w1).2.gen.2 = w.gen.2 ++ newG ∧
            ∀ o ∈ newG, ∃ g, o = (s.gen.NewCode g).1 := by
        intro w1 hw1
        obtain ⟨newG, h1, h2⟩ := ih w1
        refine ⟨.ok code :: newG, by rw [h1, hw1]; simp, ?_⟩
        intro o ho
        rcases List.mem_cons.mp ho with h | h
        · exact hone o (by rw [h]; exact List.mem_singleton.mpr rfl)
        · exact h2 o h
      by_cases hv : validAlias code = true
      · simp only [hv, Bool.not_true, Bool.false_eq_true, if_false]
        generalize (URL.mk 0 code longURL (s.nowFunc w.clock) inp.ExpiresAt 0) = record
        cases hc : (s.store.Create w.store.1 record).1 with
        | none => exact ⟨[.ok code], by simp, hone⟩
        | some err =>
          by_cases hcf : IsConflict err = true
          · simp only [hcf, Bool.not_true, Bool.false_eq_true, if_false]
            exact hrest _ rfl
          · have hcf2 : IsConflict err = false := by simpa using hcf
            simp only [hcf2, Bool.not_false, if_true]
            exact ⟨[.ok code], by simp, hone⟩
      · have hv2 : validAlias code = false := by simpa using hv
        simp only [hv2, Bool.not_false, if_true]
        exact hrest _ rfl

theorem candidates_eq_okCodes (os : List (Except Err String))
    (h : ∀ o ∈ os, ∀ code, o = .ok code → validAlias code = true) :
    candidates os = okCodes os := by
  induction os with
  | nil => rfl
  | cons o os ih =>
    have ih2 := ih (fun o ho => h o (List.mem_cons_of_mem _ ho))
    cases o with
    | error e => simp only [candidates, okCodes, ih2]
    | ok code =>
      have hv := h (.ok code) (List.mem_cons_self _ _) code rfl
      simp only [candidates, okCodes, hv, if_true, ih2]

theorem okCodes_length_of_ok (os : List (Except Err String))
    (h : ∀ o ∈ os, ∃ code, o = .ok code) : (okCodes os).length = os.length := by
  induction os with
  | nil => rfl
  | cons o os ih =>
    obtain ⟨code, ho⟩ := h o (List.mem_cons_self _ _)
    subst ho
    simp only [okCodes, List.length_cons, ih (fun o ho => h o (List.mem_cons_of_mem _ ho))]

/-- What `Shorten` adds to the journals: at most 6 generator outcomes, each the outcome of a
call of the generator, and insert attempts only; in the generated-code path the codes of
the insert attempts are the candidates that pass the syntax check. -/
theorem Shorten_logged_journal {σ γ : Type} (Parse : String → Option ParsedURL)
    (s : Service σ γ) (inp : CreateRequest)
    (w : World (σ × List StoreCall) (γ × List (Except Err String))) :
    ∃ newS newG,
      (s.logged.Shorten Parse inp w).2.store.2 = w.store.2 ++ newS ∧
      (s.logged.Shorten Parse inp w).2.gen.2 = w.gen.2 ++ newG ∧
      newG.length ≤ 6 ∧ (∀ c ∈ newS, ∃ u e, c = .Create u e) ∧
      (∀ o ∈ newG, ∃ g, o = (s.gen.NewCode g).1) ∧
      (TrimSpace inp.Custom = "" →
        (∃ longURL, normalizeAndValidateURL Parse inp.URL = .ok longURL) →
        (∀ e, inp.ExpiresAt = some e → ¬ e < s.nowFunc w.clock) →
        (inserts newS).map URL.Code = candidates newG) := by
  unfold Service.Shorten
  cases hn : normalizeAndValidateURL Parse inp.URL with
  | error e =>
    refine ⟨[], [], by simp, by simp, by simp, by simp, by simp, ?_⟩
    intro _ h
    obtain ⟨l, hl⟩ := h
    cases hl
  | ok longURL =>
    simp only
    have hp := pastExpiry_logged s inp w
    by_cases hpast : (Shorten.pastExpiry s.logged inp w).1 = true
    · simp only [hpast, if_true]
      refine ⟨[], [], by simp [hp.1], by simp [hp.2], by simp, by simp, by simp, ?_⟩
      intro _ _ hexp
      have := pastExpiry_false_of s.logged inp w hexp
      rw [this] at hpast
      cases hpast
    · simp only [hpast, Bool.false_eq_true, if_false]
      by_cases hc : TrimSpace inp.Custom = ""
      · simp only [hc, bne_self_eq_false, Bool.false_eq_true, if_false]
        obtain ⟨newS, newG, h1, h2, spec⟩ :=
          generate_logged s longURL inp generateRetries (Shorten.pastExpiry s.logged inp w).2
        obtain ⟨newG2, h3, hout⟩ :=
          generate_logged_outcomes s longURL inp generateRetries
            (Shorten.pastExpiry s.logged inp w).2
        have heq : newG2 = newG := List.append_cancel_left (h3.symm.trans h2)
        subst heq
        rw [hp.1] at h1
        rw [hp.2] at h2
        exact ⟨newS, newG2, h1, h2, spec.gen_le, spec.creates, hout, fun _ _ _ => spec.codes⟩
      · have hne : (TrimSpace inp.Custom != "") = true := by simpa using hc
        simp only [hne, if_true]
        obtain ⟨newS, h1, h2, _, h4, _, _, _⟩ :=
          custom_logged s longURL inp (Shorten.pastExpiry s.logged inp w).2
        rw [hp.1] at h1
        rw [hp.2] at h2
        refine ⟨newS, [], h1, by simp [h2], by simp, h4, by simp, ?_⟩
        intro hblank
        exact absurd hblank hc

/-! ## Candidates that fail the syntax check -/

/-- A candidate that fails the syntax check uses up one iteration of the generated-code
loop and nothing else: after `k` such candidates the loop goes on with `k` iterations less,
the store and the clock as they were. -/
theorem generate_skip {σ γ : Type} (s : Service σ γ) (longURL : String) (inp : CreateRequest)
    (k : Nat) :
    ∀ (n : Nat) (w : World σ γ),
      (∀ j < k, ∃ c, (s.gen.NewCode (s.gen.after w.gen j)).1 = .ok c ∧ validAlias c = false) →
      Shorten.generate s longURL inp (n + k) w =
        Shorten.generate s longURL inp n { w with gen := s.gen.after w.gen k } := by
  induction k with
  | zero => intro n w _; rfl
  | succ k ih =>
    intro n w h
    obtain ⟨c, hc, hv⟩ := h 0 (Nat.succ_pos k)
    simp only [CodeGenerator.after] at hc
    rw [← Nat.add_assoc, generate_succ, hc]
    simp only [hv, Bool.not_false, if_true]
    rw [ih n { w with gen := (s.gen.NewCode w.gen).2 }
      (fun j hj => by simpa [CodeGenerator.after] using h (j + 1) (Nat.succ_lt_succ hj))]
    rfl

/-! ## Metadata, hit counting and purging over the SQLite store -/

/-- Metadata over the SQLite store, on a code that passes the syntax check and has a row:
the row is returned, expired or not, and nothing changes. -/
theorem Metadata_sqlite_of_mem {γ : Type} (G : CodeGenerator γ) (clk : Nat → Time)
    (w : World sqlite.DB γ) (hnd : (w.store.rows.map URL.Code).Nodup) (r : URL)
    (hr : r ∈ w.store.rows) (hv : validAlias r.Code = true) :
    (NewService sqlite.Store G clk).Metadata r.Code w = (.ok r, w) := by
  unfold Service.Metadata
  simp only [NewService, FindByCode_eq, find?_hasCode_of_mem hnd hr, hv, Bool.not_true,
    Bool.false_eq_true, if_false]

theorem Metadata_sqlite_of_not_mem {γ : Type} (G : CodeGenerator γ) (clk : Nat → Time)
    (w : World sqlite.DB γ) (code : String) (hv : validAlias code = true)
    (h : ∀ r ∈ w.store.rows, r.Code ≠ code) :
    (NewService sqlite.Store G clk).Metadata code w = (.error ErrNotFound, w) := by
  unfold Service.Metadata
  simp [NewService, FindByCode_eq, find?_hasCode_none h, hv, IsNotFound]

/-- In a table with unique codes, the only row under the code of the row `r` is `r`. -/
theorem hasCode_iff_eq {rows : List URL} (hnd : (rows.map URL.Code).Nodup) {r x : URL}
    (hr : r ∈ rows) (hx : x ∈ rows) : sqlite.hasCode r.Code x = true ↔ x = r := by
  constructor
  · intro h
    have hc : x.Code = r.Code := by simpa [sqlite.hasCode] using h
    exact List.inj_on_of_nodup_map hnd hx hr hc
  · intro h
    subst h
    simp [sqlite.hasCode]

/-- The `UPDATE` of `IncrementHits` on the code of a row `r` of a table with unique codes:
no error, and `r` alone gets one more hit. -/
theorem IncrementHits_of_mem (db : sqlite.DB) (hnd : (db.rows.map URL.Code).Nodup) (r : URL)
    (hr : r ∈ db.rows) :
    sqlite.IncrementHits db r.Code =
      (none, { rows := db.rows.map fun x => if x = r then { r with Hits := r.Hits + 1 } else x,
               seq := db.seq }) := by
  have hrows : (db.rows.map fun x =>
        if sqlite.hasCode r.Code x then { x with Hits := x.Hits + 1 } else x) =
      db.rows.map fun x => if x = r then { r with Hits := r.Hits + 1 } else x := by
    apply List.map_congr_left
    intro x hx
    by_cases h : x = r
    · subst h
      simp [sqlite.hasCode]
    · have : sqlite.hasCode r.Code x = false := by
        rw [← Bool.not_eq_true, hasCode_iff_eq hnd hr hx]
        exact h
      simp [this, h]
  have hn : (db.rows.filter (sqlite.hasCode r.Code)).length ≠ 0 := by
    have hm : r ∈ db.rows.filter (sqlite.hasCode r.Code) := by
      rw [List.mem_filter]
      exact ⟨hr, by simp [sqlite.hasCode]⟩
    intro h0
    rw [List.length_eq_zero] at h0
    rw [h0] at hm
    cases hm
  unfold sqlite.IncrementHits
  simp only [hrows, beq_iff_eq, hn, if_false]

/-- The `UPDATE` of `IncrementHits` on a code no row has: `ErrNotFound`, the table as it
was. -/
theorem IncrementHits_of_not_mem (db : sqlite.DB) (code : String)
    (h : ∀ r ∈ db.rows, r.Code ≠ code) :
    sqlite.IncrementHits db code = (some ErrNotFound, db) := by
  have hrows : (db.rows.map fun x =>
        if sqlite.hasCode code x then { x with Hits := x.Hits + 1 } else x) = db.rows := by
    conv_rhs => rw [← List.map_id db.rows]
    apply List.map_congr_left
    intro x hx
    have : sqlite.hasCode code x = false := by simp [sqlite.hasCode, h x hx]
    simp [this]
  have hn : (db.rows.filter (sqlite.hasCode code)).length = 0 := by
    rw [List.length_eq_zero, List.filter_eq_nil_iff]
    intro x hx
    simp [sqlite.hasCode, h x hx]
  unfold sqlite.IncrementHits
  simp only [hrows, hn, beq_self_eq_true, if_true]

/-- RecordHit over the SQLite store on the code of a stored row `r`: it succeeds, `r` gets
one more hit and is what `Metadata` then returns, and nothing else changes. -/
theorem RecordHit_sqlite_of_mem {γ : Type} (G : CodeGenerator γ) (clk : Nat → Time)
    (w : World sqlite.DB γ) (hwf : w.store.WF) (r : URL) (hr : r ∈ w.store.rows)
    (hv : validAlias r.Code = true) :
    (NewService sqlite.Store G clk).RecordHit r.Code w =
      (none, { w with store :=
        { rows := w.store.rows.map fun x => if x = r then { r with Hits := r.Hits + 1 } else x,
          seq := w.store.seq } }) ∧
    (NewService sqlite.Store G clk).Metadata r.Code
        ((NewService sqlite.Store G clk).RecordHit r.Code w).2 =
      (.ok { r with Hits := r.Hits + 1 },
        ((NewService sqlite.Store G clk).RecordHit r.Code w).2) := by
  have h1 : (NewService sqlite.Store G clk).RecordHit r.Code w =
      (none, { w with store :=
        { rows := w.store.rows.map fun x => if x = r then { r with Hits := r.Hits + 1 } else x,
          seq := w.store.seq } }) := by
    unfold Service.RecordHit
    simp only [hv, Bool.not_true, Bool.false_eq_true, if_false, NewService]
    have e : sqlite.Store.IncrementHits w.store r.Code = sqlite.IncrementHits w.store r.Code :=
      rfl
    rw [e, IncrementHits_of_mem w.store hwf.1 r hr]
  refine ⟨h1, ?_⟩
  have hch := sqlite.Change.hit w.store r.Code
  rw [IncrementHits_of_mem w.store hwf.1 r hr] at hch
  have hwf1 := hch.wf hwf
  rw [h1]
  have hmem : ({ r with Hits := r.Hits + 1 } : URL) ∈
      (w.store.rows.map fun x => if x = r then { r with Hits := r.Hits + 1 } else x) := by
    rw [List.mem_map]
    exact ⟨r, hr, by simp⟩
  exact Metadata_sqlite_of_mem G clk _ hwf1.1 { r with Hits := r.Hits + 1 } hmem hv

/-- RecordHit over the SQLite store on a code no row has: `ErrNotFound`, nothing changed. -/
theorem RecordHit_sqlite_of_not_mem {γ : Type} (G : CodeGenerator γ) (clk : Nat → Time)
    (w : World sqlite.DB γ) (code : String) (hv : validAlias code = true)
    (h : ∀ r ∈ w.store.rows, r.Code ≠ code) :
    (NewService sqlite.Store G clk).RecordHit code w = (some ErrNotFound, w) := by
  unfold Service.RecordHit
  simp only [hv, Bool.not_true, Bool.false_eq_true, if_false, NewService]
  have e : sqlite.Store.IncrementHits w.store code = sqlite.IncrementHits w.store code := rfl
  rw [e, IncrementHits_of_not_mem w.store code h]

/-- The condition of the `DELETE` of `PurgeExpired`. -/
theorem isPurgeable_iff (now : Time) (r : URL) :
    sqlite.isPurgeable now r = true ↔ ∃ e, r.ExpiresAt = some e ∧ e ≤ now := by
  unfold sqlite.isPurgeable
  cases r.ExpiresAt with
  | none => simp
  | some e => simp

/-- CleanupExpired over the SQLite store: one reading of the clock, one `DELETE`. -/
theorem CleanupExpired_sqlite {γ : Type} (G : CodeGenerator γ) (clk : Nat → Time)
    (w : World sqlite.DB γ) :
    (NewService sqlite.Store G clk).CleanupExpired w =
      (.ok (w.store.rows.filter (sqlite.isPurgeable (clk w.clock))).length,
        { store := { rows := w.store.rows.filter fun r => !sqlite.isPurgeable (clk w.clock) r,
                     seq := w.store.seq },
          gen := w.gen, clock := w.clock + 1 }) := rfl

theorem filter_length_add (p : URL → Bool) (rows : List URL) :
    (rows.filter p).length + (rows.filter fun r => !p r).length = rows.length := by
  induction rows with
  | nil => rfl
  | cons x xs ih =>
    cases h : p x <;> simp [List.filter, h] <;> omega

/-! ## C11: candidates that fail the syntax check -/

/-- C11, amended. In the generated-code path (valid destination, blank alias, expiry absent
or not before the reading of the clock), let the first `k` calls of the generator return
candidates that fail the syntax check. If `k ≤ 5` and the next call returns a candidate
that passes the check and whose insert succeeds, `Shorten` succeeds with the record of that
candidate, the store being the one that insert left. If `k ≥ 6`, `Shorten` fails with
`ErrConflict` after 6 generator calls, whatever the generator would return next, the store
unchanged. -/
theorem C11_invalid_candidates {σ γ : Type} (Parse : String → Option ParsedURL)
    (s : Service σ γ) (inp : CreateRequest) (l : String) (w : World σ γ) (k : Nat)
    (code : String)
    (hurl : normalizeAndValidateURL Parse inp.URL = .ok l)
    (hblank : TrimSpace inp.Custom = "")
    (hexp : ∀ e, inp.ExpiresAt = some e → ¬ e < s.nowFunc w.clock)
    (hinv : ∀ j < k,
      ∃ c, (s.gen.NewCode (s.gen.after w.gen j)).1 = .ok c ∧ validAlias c = false) :
    (k ≤ 5 →
      (s.gen.NewCode (s.gen.after w.gen k)).1 = .ok code →
      validAlias code = true →
      (s.store.Create w.store
        ⟨0, code, l, s.nowFunc (Shorten.pastExpiry s inp w).2.clock, inp.ExpiresAt, 0⟩).1
          = none →
      (s.Shorten Parse inp w).1 =
        .ok ⟨0, code, l, s.nowFunc (Shorten.pastExpiry s inp w).2.clock, inp.ExpiresAt, 0⟩ ∧
      (s.Shorten Parse inp w).2.store =
        (s.store.Create w.store
          ⟨0, code, l, s.nowFunc (Shorten.pastExpiry s inp w).2.clock, inp.ExpiresAt, 0⟩).2) ∧
    (6 ≤ k →
      (s.Shorten Parse inp w).1 = .error ErrConflict ∧
      (s.Shorten Parse inp w).2.store = w.store ∧
      (s.Shorten Parse inp w).2.gen = s.gen.after w.gen 6) := by
  have hp := pastExpiry_store s inp w
  have hpf := pastExpiry_false_of s inp w hexp
  have hS : s.Shorten Parse inp w =
      Shorten.generate s l inp generateRetries (Shorten.pastExpiry s inp w).2 := by
    unfold Service.Shorten
    rw [hurl]
    simp only [hpf, Bool.false_eq_true, if_false, hblank, bne_self_eq_false]
  generalize Shorten.pastExpiry s inp w = p at hp hpf hS
  obtain ⟨hps, hpg⟩ := hp
  refine ⟨?_, ?_⟩
  · intro hk hg hv hc
    have h6 : generateRetries = (5 - k) + 1 + k := by unfold generateRetries; omega
    rw [hS, h6, generate_skip s l inp k (5 - k + 1) p.2
      (fun j hj => by rw [hpg]; exact hinv j hj), generate_succ]
    simp only [hpg, hps]
    rw [hg]
    simp only [hv, Bool.not_true, Bool.false_eq_true, if_false]
    rw [hc]
    exact ⟨rfl, rfl⟩
  · intro hk
    have h6 : generateRetries = 0 + 6 := rfl
    rw [hS, h6, generate_skip s l inp 6 0 p.2
      (fun j hj => by rw [hpg]; exact hinv j (by omega))]
    simp [Shorten.generate, hpg, hps]

/-- C11, amended, with 5 candidates that fail the check before a valid one: on a fresh
database `Shorten` succeeds with the sixth candidate. -/
theorem C11_invalid_candidates_witness :
    (∀ j < 5, ∃ c, ((sample.stutter 5).NewCode ((sample.stutter 5).after 0 j)).1 = .ok c ∧
      validAlias c = false) ∧
    ((NewService sqlite.Store (sample.stutter 5) (sample.clock 100 1)).Shorten sample.Parse
      ⟨"https://example.com/a", "", none⟩ sample.fresh).1 =
        .ok ⟨0, "abcdefg", "https://example.com/a", 100, none, 0⟩ :=
  have hinv : ∀ j < 5,
      ∃ c, ((sample.stutter 5).NewCode ((sample.stutter 5).after 0 j)).1 = .ok c ∧
        validAlias c = false :=
    fun j hj => ⟨"ab", by
      have h : ∀ j < 5, ((sample.stutter 5).NewCode ((sample.stutter 5).after 0 j)).1 =
          .ok "ab" := by decide
      exact h j hj, by decide⟩
  ⟨hinv,
    ((C11_invalid_candidates sample.Parse
      (NewService sqlite.Store (sample.stutter 5) (sample.clock 100 1))
      ⟨"https://example.com/a", "", none⟩ "https://example.com/a" sample.fresh 5 "abcdefg"
      (by decide) (by decide) (by simp) hinv).1
        (by decide) (by decide) (by decide) (by decide)).1⟩

/-- C11 as stated fails for k = 6: the generator returns 6 candidates that fail the syntax
check and then `abcdefg`, which passes it and whose insert into the empty table would
succeed, yet `Shorten` fails with `ErrConflict`. -/
theorem C11_counterexample :
    (∀ j < 6, ((sample.stutter 6).NewCode ((sample.stutter 6).after 0 j)).1 = .ok "ab") ∧
    validAlias "ab" = false ∧
    ((sample.stutter 6).NewCode ((sample.stutter 6).after 0 6)).1 = .ok "abcdefg" ∧
    validAlias "abcdefg" = true ∧
    (sqlite.Create sqlite.empty
      ⟨0, "abcdefg", "https://example.com/a", 100, none, 0⟩).1 = none ∧
    ((NewService sqlite.Store (sample.stutter 6) (sample.clock 100 1)).Shorten sample.Parse
      ⟨"https://example.com/a", "", none⟩ sample.fresh).1 = .error ErrConflict := by
  refine ⟨by decide, by decide, by decide, by decide, by decide, by decide⟩

/-! ## C12: metadata of an expired record -/

/-- C12: over the SQLite store, for every code that passes the syntax check and has a
stored row, `Metadata` returns that row and changes nothing, whether or not the expiry has
passed, so it never fails with `ErrExpired`; and the metadata endpoint answers 200 with
the fields of the row and the flag `expired` set when the expiry is strictly before the
reading of `time.Now`. In particular, for a row whose expiry has passed, `Resolve` fails
with `ErrExpired` while `Metadata` returns the row and the endpoint answers 200 with the
flag `expired` true. -/
theorem C12_metadata_ignores_expiry {γ : Type} (G : CodeGenerator γ) (timeNow : Nat → Time)
    (baseURL : String) (w : World sqlite.DB γ) (r : URL) (hwf : w.store.WF)
    (hr : r ∈ w.store.rows) (hv : validAlias r.Code = true) :
    (NewService sqlite.Store G timeNow).Metadata r.Code w = (.ok r, w) ∧
    ((NewHandlers (NewService sqlite.Store G timeNow) baseURL).Metadata timeNow r.Code w).1 =
      { status := 200,
        body := .metadata r.Code r.LongURL r.CreatedAt r.ExpiresAt r.Hits
          (match r.ExpiresAt with
            | none => false
            | some e => decide (e < timeNow w.clock))
          (baseURL ++ "/" ++ r.Code) } ∧
    (∀ e, r.ExpiresAt = some e → e < timeNow w.clock →
      ((NewService sqlite.Store G timeNow).Resolve r.Code w).1 = .error ErrExpired ∧
      ((NewService sqlite.Store G timeNow).Metadata r.Code w).1 = .ok r ∧
      ((NewHandlers (NewService sqlite.Store G timeNow) baseURL).Metadata timeNow r.Code w).1 =
        { status := 200,
          body := .metadata r.Code r.LongURL r.CreatedAt (some e) r.Hits true
            (baseURL ++ "/" ++ r.Code) }) := by
  have hm := Metadata_sqlite_of_mem G timeNow w hwf.1 r hr hv
  have hh : ((NewHandlers (NewService sqlite.Store G timeNow) baseURL).Metadata timeNow
      r.Code w).1 =
      { status := 200,
        body := .metadata r.Code r.LongURL r.CreatedAt r.ExpiresAt r.Hits
          (match r.ExpiresAt with
            | none => false
            | some e => decide (e < timeNow w.clock))
          (baseURL ++ "/" ++ r.Code) } := by
    unfold Handlers.Metadata
    simp only [NewHandlers, hm, StatusOK]
    cases r.ExpiresAt with
    | none => rfl
    | some e => simp
  refine ⟨hm, hh, ?_⟩
  intro e he hlt
  refine ⟨?_, by rw [hm], ?_⟩
  · rw [Resolve_sqlite_of_mem G timeNow w hwf.1 r hr hv, he]
    simp [hlt]
  · rw [hh, he]
    simp [hlt]

/-- C12 on a record that expired at 100, looked up at 105: `Resolve` fails with
`ErrExpired`, `Metadata` returns the record, and the endpoint answers 200 with the flag
`expired` true. -/
theorem C12_metadata_ignores_expiry_witness :
    ((NewService sqlite.Store ((NewGenerator 7).asCodeGenerator sample.cycling)
      (sample.clock 105 1)).Resolve "abc" sample.expiring).1 = .error ErrExpired ∧
    ((NewService sqlite.Store ((NewGenerator 7).asCodeGenerator sample.cycling)
      (sample.clock 105 1)).Metadata "abc" sample.expiring).1 =
        .ok ⟨1, "abc", "https://x.test", 90, some 100, 0⟩ ∧
    ((NewHandlers (NewService sqlite.Store ((NewGenerator 7).asCodeGenerator sample.cycling)
      (sample.clock 105 1)) "http://localhost:8080").Metadata (sample.clock 105 1) "abc"
        sample.expiring).1 =
      { status := 200,
        body := .metadata "abc" "https://x.test" 90 (some 100) 0 true
          "http://localhost:8080/abc" } :=
  (C12_metadata_ignores_expiry ((NewGenerator 7).asCodeGenerator sample.cycling)
    (sample.clock 105 1) "http://localhost:8080" sample.expiring
    ⟨1, "abc", "https://x.test", 90, some 100, 0⟩ (by decide) (by decide) (by decide)).2.2
    100 rfl (by decide)

/-! ## C13: hit counting -/

/-- C13: over the SQLite store, with a table that satisfies its schema, for every code that
passes the syntax check: when a row `r` has the code, `RecordHit` succeeds, the table after
it is the table before it with `r` replaced by `r` with one more hit (same id, code,
destination, creation time and expiry; every other row, and the generator and the clock,
as they were), and `Metadata` then returns `r` with one more hit; when no row has the code,
`RecordHit` returns the store's `ErrNotFound` and changes nothing. And after a successful
`Shorten`, one `RecordHit` on the code of the record succeeds and `Metadata` on that code
then reports 1 hit. -/
theorem C13_record_hit {γ : Type} (Parse : String → Option ParsedURL) (G : CodeGenerator γ)
    (clk : Nat → Time) (w : World sqlite.DB γ) (code : String) (hwf : w.store.WF)
    (hv : validAlias code = true) :
    (∀ r ∈ w.store.rows, r.Code = code →
      (NewService sqlite.Store G clk).RecordHit code w =
        (none, { w with store :=
          { rows := w.store.rows.map fun x =>
              if x = r then
                { ID := r.ID, Code := r.Code, LongURL := r.LongURL, CreatedAt := r.CreatedAt,
                  ExpiresAt := r.ExpiresAt, Hits := r.Hits + 1 }
              else x,
            seq := w.store.seq } }) ∧
      ((NewService sqlite.Store G clk).Metadata code
          ((NewService sqlite.Store G clk).RecordHit code w).2).1 =
        .ok { ID := r.ID, Code := r.Code, LongURL := r.LongURL, CreatedAt := r.CreatedAt,
              ExpiresAt := r.ExpiresAt, Hits := r.Hits + 1 }) ∧
    ((∀ r ∈ w.store.rows, r.Code ≠ code) →
      (NewService sqlite.Store G clk).RecordHit code w = (some ErrNotFound, w)) ∧
    (∀ inp record, ((NewService sqlite.Store G clk).Shorten Parse inp w).1 = .ok record →
      ((NewService sqlite.Store G clk).RecordHit record.Code
        ((NewService sqlite.Store G clk).Shorten Parse inp w).2).1 = none ∧
      ∃ m, ((NewService sqlite.Store G clk).Metadata record.Code
          ((NewService sqlite.Store G clk).RecordHit record.Code
            ((NewService sqlite.Store G clk).Shorten Parse inp w).2).2).1 = .ok m ∧
        m.Hits = 1 ∧ m.Code = record.Code ∧ m.LongURL = record.LongURL ∧
        m.ExpiresAt = record.ExpiresAt) := by
  refine ⟨?_, ?_, ?_⟩
  · intro r hr hc
    subst hc
    have h := RecordHit_sqlite_of_mem G clk w hwf r hr hv
    exact ⟨h.1, by rw [h.2]⟩
  · intro h
    exact RecordHit_sqlite_of_not_mem G clk w code hv h
  · intro inp record hrec
    obtain ⟨l, _, hc⟩ := (Shorten_sqlite Parse G clk inp w).1 record hrec
    generalize ((NewService sqlite.Store G clk).Shorten Parse inp w).2 = w1 at hc
    have hch := sqlite.Change.create w.store record hc.free
    rw [Create_rows_of_free w.store record hc.free, ← hc.stored] at hch
    have hwf1 : w1.store.WF := hch.wf hwf
    have hmem : sqlite.inserted w.store.seq record ∈ w1.store.rows := by
      rw [hc.stored]; simp
    have h := RecordHit_sqlite_of_mem G clk w1 hwf1 (sqlite.inserted w.store.seq record) hmem
      hc.valid
    have hcode : (sqlite.inserted w.store.seq record).Code = record.Code := rfl
    rw [hcode] at h
    exact ⟨by rw [h.1], _, congrArg Prod.fst h.2, rfl, rfl, rfl, rfl⟩

/-- C13 on a concrete scenario: `Shorten` with the alias `vimal` on a fresh database, one
`RecordHit` on `vimal`, and `Metadata` reports 1 hit. -/
theorem C13_record_hit_witness :
    ((sample.service 7).RecordHit "vimal"
      ((sample.service 7).Shorten sample.Parse ⟨"https://example.com", "vimal", none⟩
        sample.fresh).2).1 = none ∧
    ∃ m, ((sample.service 7).Metadata "vimal"
        ((sample.service 7).RecordHit "vimal"
          ((sample.service 7).Shorten sample.Parse ⟨"https://example.com", "vimal", none⟩
            sample.fresh).2).2).1 = .ok m ∧
      m.Hits = 1 ∧ m.Code = "vimal" ∧ m.LongURL = "https://example.com" ∧
      m.ExpiresAt = none :=
  (C13_record_hit sample.Parse ((NewGenerator 7).asCodeGenerator sample.cycling)
    (sample.clock 100 1) sample.fresh "vimal" (by decide) (by decide)).2.2
    ⟨"https://example.com", "vimal", none⟩
    ⟨0, "vimal", "https://example.com", 100, none, 0⟩ (by decide)

/-! ## C14: cleanup -/

/-- C14: over the SQLite store, for every table and every reading `now` of the clock,
`CleanupExpired` returns the number of rows it removes, and the table after it is the
table before it without the rows whose expiry is present and at or before `now`: a row of
the table is kept, unchanged and in place, exactly when it has no expiry or an expiry after
`now`. A second `CleanupExpired` right afterwards, when no kept row has an expiry at or
before the second reading of the clock, returns 0 and leaves the table as it is. -/
theorem C14_cleanup_expired {γ : Type} (G : CodeGenerator γ) (clk : Nat → Time)
    (w : World sqlite.DB γ) :
    (∃ n, ((NewService sqlite.Store G clk).CleanupExpired w).1 = .ok n ∧
      n + ((NewService sqlite.Store G clk).CleanupExpired w).2.store.rows.length =
        w.store.rows.length) ∧
    ((NewService sqlite.Store G clk).CleanupExpired w).2.store.rows.Sublist w.store.rows ∧
    (∀ r, r ∈ ((NewService sqlite.Store G clk).CleanupExpired w).2.store.rows ↔
      r ∈ w.store.rows ∧ ¬ ∃ e, r.ExpiresAt = some e ∧ e ≤ clk w.clock) ∧
    (∀ r ∈ w.store.rows, r.ExpiresAt = none →
      r ∈ ((NewService sqlite.Store G clk).CleanupExpired w).2.store.rows) ∧
    ((∀ r ∈ w.store.rows, ∀ e, r.ExpiresAt = some e → clk w.clock < e →
        clk (w.clock + 1) < e) →
      ((NewService sqlite.Store G clk).CleanupExpired
          ((NewService sqlite.Store G clk).CleanupExpired w).2).1 = .ok 0 ∧
      ((NewService sqlite.Store G clk).CleanupExpired
          ((NewService sqlite.Store G clk).CleanupExpired w).2).2.store =
        ((NewService sqlite.Store G clk).CleanupExpired w).2.store) := by
  rw [CleanupExpired_sqlite]
  have hmem : ∀ r, r ∈ (w.store.rows.filter fun r => !sqlite.isPurgeable (clk w.clock) r) ↔
      r ∈ w.store.rows ∧ ¬ ∃ e, r.ExpiresAt = some e ∧ e ≤ clk w.clock := by
    intro r
    rw [List.mem_filter, ← isPurgeable_iff]
    simp
  refine ⟨⟨_, rfl, filter_length_add _ _⟩, List.filter_sublist _, hmem, ?_, ?_⟩
  · intro r hr hnone
    rw [hmem]
    refine ⟨hr, ?_⟩
    rintro ⟨e, he, _⟩
    rw [hnone] at he
    cases he
  · intro hnew
    rw [CleanupExpired_sqlite]
    simp only
    have hnone : ∀ r ∈ (w.store.rows.filter fun r => !sqlite.isPurgeable (clk w.clock) r),
        sqlite.isPurgeable (clk (w.clock + 1)) r = false := by
      intro r hr
      obtain ⟨hr1, hr2⟩ := (hmem r).mp hr
      rw [← Bool.not_eq_true, isPurgeable_iff]
      rintro ⟨e, he, hle⟩
      have h1 : clk w.clock < e := by
        by_contra hcon
        exact hr2 ⟨e, he, not_lt.mp hcon⟩
      have h2 := hnew r hr1 e he h1
      exact absurd hle (not_le.mpr h2)
    have h0 : (w.store.rows.filter fun r => !sqlite.isPurgeable (clk w.clock) r).filter
        (sqlite.isPurgeable (clk (w.clock + 1))) = [] := by
      rw [List.filter_eq_nil_iff]
      intro r hr
      simp [hnone r hr]
    have h1 : (w.store.rows.filter fun r => !sqlite.isPurgeable (clk w.clock) r).filter
        (fun r => !sqlite.isPurgeable (clk (w.clock + 1)) r) =
        w.store.rows.filter fun r => !sqlite.isPurgeable (clk w.clock) r := by
      rw [List.filter_eq_self]
      intro r hr
      simp [hnone r hr]
    rw [h0, h1]
    exact ⟨rfl, rfl⟩

/-- C14 on a table with one record that expires at 100, cleaned up at 100 and again at
101: the first call returns 1 and empties the table, the second returns 0. -/
theorem C14_cleanup_expired_witness :
    ((NewService sqlite.Store ((NewGenerator 7).asCodeGenerator sample.cycling)
      (sample.clock 100 1)).CleanupExpired sample.expiring).1 = .ok 1 ∧
    ((NewService sqlite.Store ((NewGenerator 7).asCodeGenerator sample.cycling)
      (sample.clock 100 1)).CleanupExpired sample.expiring).2.store.rows = [] ∧
    ((NewService sqlite.Store ((NewGenerator 7).asCodeGenerator sample.cycling)
      (sample.clock 100 1)).CleanupExpired
        ((NewService sqlite.Store ((NewGenerator 7).asCodeGenerator sample.cycling)
          (sample.clock 100 1)).CleanupExpired sample.expiring).2).1 = .ok 0 :=
  ⟨by decide, by decide,
    ((C14_cleanup_expired ((NewGenerator 7).asCodeGenerator sample.cycling)
      (sample.clock 100 1) sample.expiring).2.2.2.2
      (by intro r hr e he hlt
          rw [List.mem_singleton.mp hr] at he
          cases he
          exact absurd hlt (by decide))).1⟩

/-! ## C15: cleanup and resolution at the expiry -/

/-- C15, what the code does: over the SQLite store, `CleanupExpired` at the reading `now`
of the clock removes a stored row exactly when its expiry is present and at or before
`now`. When the expiry is strictly before `now`, `Resolve` at the same reading fails with
`ErrExpired`; but when the expiry is equal to `now`, `CleanupExpired` removes the row
although `Resolve` at the same reading returns it: the row is purged while still
resolvable. -/
theorem C15_purge_at_boundary {γ : Type} (G : CodeGenerator γ) (clk : Nat → Time)
    (w : World sqlite.DB γ) (r : URL) (hwf : w.store.WF) (hr : r ∈ w.store.rows)
    (hv : validAlias r.Code = true) :
    (r ∉ ((NewService sqlite.Store G clk).CleanupExpired w).2.store.rows ↔
      ∃ e, r.ExpiresAt = some e ∧ e ≤ clk w.clock) ∧
    (∀ e, r.ExpiresAt = some e → e < clk w.clock →
      ((NewService sqlite.Store G clk).Resolve r.Code w).1 = .error ErrExpired) ∧
    (r.ExpiresAt = some (clk w.clock) →
      r ∉ ((NewService sqlite.Store G clk).CleanupExpired w).2.store.rows ∧
      ((NewService sqlite.Store G clk).Resolve r.Code w).1 = .ok r) := by
  have hrm : r ∉ ((NewService sqlite.Store G clk).CleanupExpired w).2.store.rows ↔
      ∃ e, r.ExpiresAt = some e ∧ e ≤ clk w.clock := by
    rw [CleanupExpired_sqlite]
    simp only [List.mem_filter, hr, true_and, Bool.not_eq_true', Bool.not_eq_false,
      isPurgeable_iff]
  refine ⟨hrm, ?_, ?_⟩
  · intro e he hlt
    rw [Resolve_sqlite_of_mem G clk w hwf.1 r hr hv, he]
    simp [hlt]
  · intro he
    refine ⟨hrm.mpr ⟨_, he, le_refl _⟩, ?_⟩
    rw [Resolve_sqlite_of_mem G clk w hwf.1 r hr hv, he]
    simp

/-- C15 at the boundary: the record under `abc` expires at 100 and the clock reads 100.
`Resolve` returns the record, and `CleanupExpired` at the same reading removes it. -/
theorem C15_purge_at_boundary_witness :
    ((NewService sqlite.Store ((NewGenerator 7).asCodeGenerator sample.cycling)
      (sample.clock 100 0)).Resolve "abc" sample.expiring).1 =
        .ok ⟨1, "abc", "https://x.test", 90, some 100, 0⟩ ∧
    (⟨1, "abc", "https://x.test", 90, some 100, 0⟩ : URL) ∈ sample.expiring.store.rows ∧
    (⟨1, "abc", "https://x.test", 90, some 100, 0⟩ : URL) ∉
      ((NewService sqlite.Store ((NewGenerator 7).asCodeGenerator sample.cycling)
        (sample.clock 100 0)).CleanupExpired sample.expiring).2.store.rows :=
  have h := (C15_purge_at_boundary ((NewGenerator 7).asCodeGenerator sample.cycling)
    (sample.clock 100 0) sample.expiring ⟨1, "abc", "https://x.test", 90, some 100, 0⟩
    (by decide) (by decide) (by decide)).2.2 (by decide)
  ⟨h.2, by decide, h.1⟩

/-! ## C16: invariants of the table -/

/-- C16: over the SQLite store, starting from a table that satisfies its schema, after any
one call of the service (`Shorten`, `Resolve`, `Metadata`, `RecordHit`, `CleanupExpired`,
whatever it returns), and so after any sequence of calls, no two rows share a code (nor an
id), and every row stored before and still stored after, the same row by its id, has the
same code, destination, creation time and expiry, and at least as many hits. The schema
holds of the empty table, so after any sequence of calls on a fresh database no two rows
share a code. -/
theorem C16_store_invariants {γ : Type} (Parse : String → Option ParsedURL)
    (G : CodeGenerator γ) (clk : Nat → Time) (c : Call) (cs : List Call)
    (w : World sqlite.DB γ) (hwf : w.store.WF) :
    ((((NewService sqlite.Store G clk).step Parse c w).store.rows.map URL.Code).Nodup ∧
      (((NewService sqlite.Store G clk).step Parse c w).store.rows.map URL.ID).Nodup ∧
      ∀ r ∈ w.store.rows, ∀ r' ∈ ((NewService sqlite.Store G clk).step Parse c w).store.rows,
        r'.ID = r.ID →
        r'.Code = r.Code ∧ r'.LongURL = r.LongURL ∧ r'.CreatedAt = r.CreatedAt ∧
          r'.ExpiresAt = r.ExpiresAt ∧ r.Hits ≤ r'.Hits) ∧
    ((((NewService sqlite.Store G clk).run Parse cs w).store.rows.map URL.Code).Nodup ∧
      (((NewService sqlite.Store G clk).run Parse cs w).store.rows.map URL.ID).Nodup ∧
      ∀ r ∈ w.store.rows, ∀ r' ∈ ((NewService sqlite.Store G clk).run Parse cs w).store.rows,
        r'.ID = r.ID →
        r'.Code = r.Code ∧ r'.LongURL = r.LongURL ∧ r'.CreatedAt = r.CreatedAt ∧
          r'.ExpiresAt = r.ExpiresAt ∧ r.Hits ≤ r'.Hits) ∧
    (((NewService sqlite.Store G clk).run Parse cs
      { store := sqlite.empty, gen := w.gen, clock := w.clock }).store.rows.map
        URL.Code).Nodup := by
  have key : ∀ db' : sqlite.DB, db'.WF → sqlite.Later w.store db' →
      (db'.rows.map URL.Code).Nodup ∧ (db'.rows.map URL.ID).Nodup ∧
      ∀ r ∈ w.store.rows, ∀ r' ∈ db'.rows, r'.ID = r.ID →
        r'.Code = r.Code ∧ r'.LongURL = r.LongURL ∧ r'.CreatedAt = r.CreatedAt ∧
          r'.ExpiresAt = r.ExpiresAt ∧ r.Hits ≤ r'.Hits := by
    intro db' hwf' hl
    refine ⟨hwf'.1, hwf'.2.1, ?_⟩
    intro r hr r' hr' hid
    obtain ⟨r0, hr0, h1, h2, h3, h4, h5, h6⟩ :=
      hl.2 r' hr' (by rw [hid]; exact hwf.2.2 r hr)
    have hrr : r0 = r := List.inj_on_of_nodup_map hwf.2.1 hr0 hr (h1.trans hid)
    subst hrr
    exact ⟨h2.symm, h3.symm, h4.symm, h5.symm, h6⟩
  have hch := step_change Parse G clk c w
  have hrun := run_later Parse G clk cs w hwf
  have hwf0 : sqlite.empty.WF := by decide
  have hempty := run_later Parse G clk cs
    { store := sqlite.empty, gen := w.gen, clock := w.clock } hwf0
  exact ⟨key _ (hch.wf hwf) hch.later, key _ hrun.1 hrun.2, hempty.1.1⟩

/-- C16 on a table with one record under `abc`: after a `RecordHit` on `abc`, a
`CleanupExpired` and a `Shorten`, the codes of the table are pairwise distinct. -/
theorem C16_store_invariants_witness :
    sample.expiring.store.WF ∧
    (((sample.service 7).run sample.Parse
      [.RecordHit "abc", .CleanupExpired, .Shorten ⟨"https://example.com", "abc", none⟩]
      sample.expiring).store.rows.map URL.Code).Nodup :=
  ⟨by decide,
    (C16_store_invariants sample.Parse ((NewGenerator 7).asCodeGenerator sample.cycling)
      (sample.clock 100 1) (.RecordHit "abc")
      [.RecordHit "abc", .CleanupExpired, .Shorten ⟨"https://example.com", "abc", none⟩]
      sample.expiring (by decide)).2.1.1⟩

/-! ## C17: the base62 generator -/

/-- C17: the alphabet has 62 pairwise distinct characters, each a digit, an uppercase or a
lowercase letter. With a random source that does not fail, `RandomBase62 n` returns a
string; every string it returns has length `n` when `n > 0` and length 7 when `n ≤ 0`, and
each of its characters is a character of the alphabet. A generator built by
`NewGenerator length` likewise returns a code when the source does not fail, a code it
returns has exactly that length (7 when `length ≤ 0`), and an error it returns is the
error of a draw of the random source. -/
theorem C17_random_base62 (src : RandSource) (n : Int) (k : Nat) :
    (alphabet.length = 62 ∧ alphabet.data.Nodup ∧
      ∀ c ∈ alphabet.data, c.isDigit = true ∨ c.isUpper = true ∨ c.isLower = true) ∧
    ((∀ j, ∃ i, src j = .ok i) → ∃ code, (RandomBase62 src n k).1 = .ok code) ∧
    (∀ code, (RandomBase62 src n k).1 = .ok code →
      code.length = (if 0 < n then n else 7).toNat ∧ ∀ c ∈ code.data, c ∈ alphabet.data) ∧
    ((∀ j, ∃ i, src j = .ok i) → ∃ code, ((NewGenerator n).NewCode src k).1 = .ok code) ∧
    (∀ code, ((NewGenerator n).NewCode src k).1 = .ok code →
      code.length = (if 0 < n then n else 7).toNat ∧ ∀ c ∈ code.data, c ∈ alphabet.data) ∧
    (∀ e, ((NewGenerator n).NewCode src k).1 = .error e → ∃ j, src j = .error e) := by
  have hif : (if 0 < n then n else 7) = (if n ≤ 0 then 7 else n) := by
    by_cases h : n ≤ 0
    · rw [if_pos h, if_neg (by omega)]
    · rw [if_neg h, if_pos (by omega)]
  have hok : ∀ code, (RandomBase62 src n k).1 = .ok code →
      code.length = (if 0 < n then n else 7).toNat ∧ ∀ c ∈ code.data, c ∈ alphabet.data := by
    intro code h
    obtain ⟨hlen, hall⟩ := RandomBase62_ok_spec src n k code h
    refine ⟨by rw [hif]; exact hlen, ?_⟩
    intro c hc
    obtain ⟨i, hi⟩ := hall c hc
    rw [hi]
    exact alphabetAt_mem i
  have hret : (∀ j, ∃ i, src j = .ok i) → ∃ code, (RandomBase62 src n k).1 = .ok code := by
    intro hsrc
    obtain ⟨code, hcode, _⟩ := NewCode_ok src hsrc n k
    rw [NewCode_eq] at hcode
    exact ⟨code, hcode⟩
  refine ⟨⟨by decide, by decide, by decide⟩, hret, hok, ?_, ?_, ?_⟩
  · rw [NewCode_eq]; exact hret
  · rw [NewCode_eq]; exact hok
  · intro e h
    rw [NewCode_eq] at h
    unfold RandomBase62 at h
    exact (RandomBase62_loop_spec src _ [] k).2 e h

/-- C17 on a concrete source: the source whose k-th draw is `k mod 62` does not fail, and
`RandomBase62 0` from the first draw returns a string of length 7 over the alphabet. -/
theorem C17_random_base62_witness :
    (∀ j, ∃ i, sample.cycling j = .ok i) ∧
    ∃ code, (RandomBase62 sample.cycling 0 0).1 = .ok code ∧ code.length = 7 ∧
      ∀ c ∈ code.data, c ∈ alphabet.data := by
  have h := C17_random_base62 sample.cycling 0 0
  obtain ⟨code, hcode⟩ := h.2.1 (fun _ => ⟨_, rfl⟩)
  exact ⟨fun _ => ⟨_, rfl⟩, code, hcode, (h.2.2.1 code hcode).1, (h.2.2.1 code hcode).2⟩

/-! ## C18: generated codes pass the syntax check -/

/-- C18: for a generator built with a configured length from 3 to 64, whatever the random
source does, every code it returns passes the syntax check `validAlias`. So in `Shorten`
run with such a generator on a journalled store, every candidate in the generator's
journal passes the check, and in the generated-code path the codes of the insert attempts
are, in order, all the candidates generated (at most 6): no candidate is skipped by the
defensive branch. With a random source that does not fail there are as many insert
attempts as generator calls. -/
theorem C18_generated_codes_valid {σ : Type} (Parse : String → Option ParsedURL)
    (S : Store σ) (src : RandSource) (clk : Nat → Time) (length : Int)
    (h3 : 3 ≤ length) (h64 : length ≤ 64) (inp : CreateRequest)
    (w : World (σ × List StoreCall) (Nat × List (Except Err String))) :
    (∀ k code, ((NewGenerator length).NewCode src k).1 = .ok code → validAlias code = true) ∧
    ∃ newS newG,
      ((NewService S ((NewGenerator length).asCodeGenerator src) clk).logged.Shorten
        Parse inp w).2.store.2 = w.store.2 ++ newS ∧
      ((NewService S ((NewGenerator length).asCodeGenerator src) clk).logged.Shorten
        Parse inp w).2.gen.2 = w.gen.2 ++ newG ∧
      newG.length ≤ 6 ∧
      (∀ o ∈ newG, ∀ code, o = .ok code → validAlias code = true) ∧
      (TrimSpace inp.Custom = "" →
        (∃ longURL, normalizeAndValidateURL Parse inp.URL = .ok longURL) →
        (∀ e, inp.ExpiresAt = some e → ¬ e < clk w.clock) →
        (inserts newS).map URL.Code = okCodes newG ∧
        ((∀ j, ∃ i, src j = .ok i) → newS.length = newG.length)) := by
  have hvalid : ∀ k code, ((NewGenerator length).NewCode src k).1 = .ok code →
      validAlias code = true :=
    fun k code h => NewCode_validAlias src length h3 h64 k code h
  refine ⟨hvalid, ?_⟩
  obtain ⟨newS, newG, h1, h2, hle, hcr, hout, hcodes⟩ :=
    Shorten_logged_journal Parse (NewService S ((NewGenerator length).asCodeGenerator src) clk)
      inp w
  have hv : ∀ o ∈ newG, ∀ code, o = .ok code → validAlias code = true := by
    intro o ho code hcode
    obtain ⟨g, hg⟩ := hout o ho
    exact hvalid g code (by rw [← hcode, hg]; rfl)
  refine ⟨newS, newG, h1, h2, hle, hv, ?_⟩
  intro hblank hurl hexp
  have hc := hcodes hblank hurl hexp
  rw [candidates_eq_okCodes newG hv] at hc
  refine ⟨hc, ?_⟩
  intro hsrc
  have hok : ∀ o ∈ newG, ∃ code, o = .ok code := by
    intro o ho
    obtain ⟨g, hg⟩ := hout o ho
    obtain ⟨code, hcode, _⟩ := NewCode_ok src hsrc length g
    exact ⟨code, by rw [hg]; exact hcode⟩
  have hl1 := inserts_length_of_creates newS hcr
  have hl2 := okCodes_length_of_ok newG hok
  have hl3 : (inserts newS).length = (okCodes newG).length := by
    rw [← hc, List.length_map]
  omega

/-- C18 on a concrete generator: with the configured length 7 and the source whose k-th draw
is `k mod 62`, the first code is `0123456`, and it passes the syntax check. -/
theorem C18_generated_codes_valid_witness :
    (3 : Int) ≤ 7 ∧ (7 : Int) ≤ 64 ∧
    ((NewGenerator 7).NewCode sample.cycling 0).1 = .ok "0123456" ∧
    validAlias "0123456" = true :=
  ⟨by decide, by decide, by decide,
    (C18_generated_codes_valid sample.Parse sqlite.Store sample.cycling (sample.clock 100 1) 7
      (by decide) (by decide) ⟨"https://example.com/a", "", none⟩ sample.freshLogged).1
      0 "0123456" (by decide)⟩

end URLShorty
